import Mathlib

/-!
A verification development for the MonitorChain interface library
(src/interface.js): the transaction ledger, nonce resolution, submission
flow, backpressure, id generation and gas/cost accounting.

Modelling conventions (shallow embedding of the JavaScript source):
the process-wide mutable `transactions` object becomes an explicit
`LedgerState` threaded through the functions; JS numbers in these code
paths are nonnegative integers below 2^53 and become `Nat`; big-integer
values (the `big-integer` library) become `Nat` (all accumulated values
are nonnegative); JS `undefined` becomes `Option.none`; fallible code
returns `Except`.  The float accumulator `totalEthSpent` is modelled as
an exact rational (`Rat`); floating-point rounding is abstracted away,
which the spec itself declares accepted imprecision.
-/

/-- Transaction status, the `status` field of a ledger entry
(`pending`, `submitted`, `confirmed`, `failed` in the source). -/
inductive Status where
  | pending
  | submitted
  | confirmed
  | failed
deriving DecidableEq

/-- Classification of an intent, `txType` in `getTxMeta`:
`send` for state-changing methods, `call` for pure/view methods. -/
inductive TxType where
  | send
  | call
deriving DecidableEq

/-- One transaction-intent record (the objects stored in `transactions.tx`).
Fields that are `undefined` until some step of the flow assigns them are
`Option`s.  The `options` object of the source is flattened into the two
fields the core reads or writes (`optGasPrice` = `options.gasPrice`,
`optNonce` = `options.nonce`); `options.from`, `options.gas` and
`options.value` are passed through to the node untouched and are omitted.
`totalGasUsed` is the per-entry snapshot field set at line 291 of the
source (a copy of the contract object's accumulator), distinct from the
ledger-wide accumulator in `LedgerState`. -/
structure TxMeta where
  id : Option Nat := none
  address : String := ""
  method : String := ""
  methodArgs : List String := []
  optGasPrice : Option Nat := none
  optNonce : Option Nat := none
  txType : Option TxType := none
  status : Option Status := none
  nonce : Option Nat := none
  time : Nat := 0
  gasUsed : Option Nat := none
  totalGasUsed : Option Nat := none
deriving DecidableEq

/-- The process-wide mutable state of the `transactions` object:
the ordered entry list `tx`, the accumulators `totalGasUsed` (a
big-integer in the source) and `totalEthSpent` (a JS float, modelled
exactly), and `_idCounter`. -/
structure LedgerState where
  tx : List TxMeta := []
  totalGasUsed : Nat := 0
  totalEthSpent : Rat := 0
  idCounter : Nat := 0
deriving DecidableEq

/-- The empty initial ledger (the source seeds `_idCounter` randomly;
theorems quantify over the seed where it matters, and concrete
instances use seed 0). -/
def ledger0 : LedgerState := {}

/-- Status filter, the `getTxsByMetaData('status', value)` step of
`getFilteredTxList`: `txList.filter(txMeta => txMeta[key] === value)`. -/
def getFilteredByStatus (l : List TxMeta) (s : Status) : List TxMeta :=
  l.filter fun t => decide (t.status = some s)

/-- Address filter, the `getTxsByMetaData('address', value)` step;
no filtering when the accessor was called without an address. -/
def filterByAddress (l : List TxMeta) : Option String → List TxMeta
  | none => l
  | some a => l.filter fun t => decide (t.address = a)

/-- `getSubmittedTransactions(address?)`: status filter first, then the
optional address filter (the key order of the `filter` object). -/
def getSubmittedTransactions (l : List TxMeta) (a : Option String) : List TxMeta :=
  filterByAddress (getFilteredByStatus l Status.submitted) a

/-- `getConfirmedTransactions(address?)`. -/
def getConfirmedTransactions (l : List TxMeta) (a : Option String) : List TxMeta :=
  filterByAddress (getFilteredByStatus l Status.confirmed) a

/-- `getPendingTransactions(address?)`. -/
def getPendingTransactions (l : List TxMeta) (a : Option String) : List TxMeta :=
  filterByAddress (getFilteredByStatus l Status.pending) a

/-- `getFailedTransactions(address?)`. -/
def getFailedTransactions (l : List TxMeta) (a : Option String) : List TxMeta :=
  filterByAddress (getFilteredByStatus l Status.failed) a

/-- `updateTx(txMeta)`: `findIndex(tx => tx.id === txMeta.id)` followed by
`this.tx[index] = txMeta`, i.e. replace the first entry whose id equals
`txMeta.id`.  When no entry matches, `findIndex` returns `-1` and the JS
assignment `this.tx[-1] = txMeta` writes a non-index property of the
array object, leaving the ordered sequence untouched: the faithful
functional translation returns the list unchanged. -/
def updateTx (l : List TxMeta) (m : TxMeta) : List TxMeta :=
  match l with
  | [] => []
  | x :: xs => if x.id = m.id then m :: xs else x :: updateTx xs m

/-- `Number.MAX_SAFE_INTEGER`. -/
def MSI : Nat := 2 ^ 53 - 1

/-- `_createRandomId()`: `this._idCounter = this._idCounter % MSI;
return this._idCounter++`.  Given the current counter, returns the id
handed out and the new counter value. -/
def _createRandomId (c : Nat) : Nat × Nat :=
  (c % MSI, c % MSI + 1)

/-- Id selection in `addTx`: `args.id = args.id || this._createRandomId()`.
A caller-supplied id is kept unless it is falsy; the JS number `0` is
falsy, so a caller id of `0` is replaced by a generated one.  Returns the
chosen id and the (possibly advanced) counter. -/
def addTxId (oid : Option Nat) (counter : Nat) : Nat × Nat :=
  match oid with
  | some i => if i = 0 then _createRandomId counter else (i, counter)
  | none => _createRandomId counter

/-- `addTx(args)`: assign the id, set `args.time` to the current clock,
default the status to `pending` (`args.status || 'pending'`; statuses are
nonempty strings, hence truthy when present), push the entry, and return
it (the source returns `args.id`; the stored entry carries it). -/
def addTx (st : LedgerState) (args : TxMeta) (now : Nat) : LedgerState × TxMeta :=
  let p := addTxId args.id st.idCounter
  let m := { args with
    id := some p.1
    time := now
    status := some (args.status.getD Status.pending) }
  ({ st with tx := st.tx ++ [m], idCounter := p.2 }, m)

/-- The stream of generated ids: `idStream c n` is the id returned by the
`(n+1)`-st call to `_createRandomId` when the counter starts at `c`. -/
def idStream (c : Nat) : Nat → Nat
  | 0 => (_createRandomId c).1
  | n + 1 => idStream (_createRandomId c).2 n

/-- `fromWei(amount, 'ether')` followed by `parseFloat`: the exact value
`wei / 10^18`.  The web3 string conversion is exact decimal arithmetic;
the `parseFloat` rounding is abstracted (accepted imprecision). -/
def fromWeiEther (wei : Nat) : Rat :=
  (wei : Rat) / (10 ^ 18 : Rat)

/-- `updateStat(gasUsed, gasPrice)` on defined integer arguments:
`weiSpent = bn(gasUsed).multiply(bn(gasPrice))` (exact integer product);
`totalGasUsed = totalGasUsed.add(bn(gasUsed))`;
`totalEthSpent = totalEthSpent + parseFloat(fromWei(weiSpent, 'ether'))`. -/
def updateStat (st : LedgerState) (gasUsed gasPrice : Nat) : LedgerState :=
  let weiSpent := gasUsed * gasPrice
  { st with
    totalGasUsed := st.totalGasUsed + gasUsed
    totalEthSpent := st.totalEthSpent + fromWeiEther weiSpent }

/-- `updateStat` as called from `submitTx` with `txMeta.options.gasPrice`,
which may be `undefined` (no gas price was ever assigned): the big-integer
constructor maps `undefined` to zero (`bigInt(undefined)` returns
`bigInt.zero`), so the call never throws and an undefined gas price simply
contributes a zero cost. -/
def updateStatOpt (st : LedgerState) (gasUsed : Nat) (gasPrice : Option Nat) :
    LedgerState :=
  updateStat st gasUsed (gasPrice.getD 0)

/-- Folding step of the JS maximum (see `maxNonces`): `NaN` (a missing
nonce) poisons the result. -/
def combineNaN : Option Nat → Option Nat → Option Nat
  | some n, some m => some (Nat.max n m)
  | _, _ => none

/-- `Math.max.apply(null, txList.map(t => t.nonce))` over optional nonces:
the empty list gives `-Infinity` and a list containing an `undefined`
nonce gives `NaN`; both fail the caller's `Number.isInteger` test and are
modelled as `none`. -/
def maxNonces : List (Option Nat) → Option Nat
  | [] => none
  | x :: xs =>
    match xs with
    | [] => x
    | _ :: _ => combineNaN x (maxNonces xs)

/-- `_getHighestNonce(txList)`. -/
def _getHighestNonce (l : List TxMeta) : Option Nat :=
  maxNonces (l.map fun t => t.nonce)

/-- `_getHighestLocallyConfirmed(address)`: the highest nonce among the
address's confirmed entries plus one when that maximum is an integer,
`0` otherwise (no confirmed entries, or a missing nonce). -/
def _getHighestLocallyConfirmed (l : List TxMeta) (address : String) : Nat :=
  match _getHighestNonce (getConfirmedTransactions l (some address)) with
  | some h => h + 1
  | none => 0

/-- The loop of `_getHighestContinuousFrom`:
`while (nonces.includes(highest)) highest++`, with explicit fuel.
The caller supplies fuel exceeding the list length, which always
suffices (each iteration consumes a distinct member of the list). -/
def hcFrom (nonces : List (Option Nat)) (start : Nat) : Nat → Nat
  | 0 => start
  | fuel + 1 =>
    if some start ∈ nonces then hcFrom nonces (start + 1) fuel else start

/-- `_getHighestContinuousFrom(txList, startPoint)`. -/
def _getHighestContinuousFrom (l : List TxMeta) (start : Nat) : Nat :=
  hcFrom (l.map fun t => t.nonce) start (l.length + 1)

/-- JS `x || 0` on a nonnegative number: the identity (`0 || 0` is `0`).
Kept to mirror `this._getHighestContinuousFrom(pendingTxs,
highestSuggested) || 0` at line 189 of the source. -/
def jsOrZero (n : Nat) : Nat :=
  if n = 0 then 0 else n

/-- The diagnostic breakdown returned by `getNonce` as `nonceDetails`. -/
structure NonceDetails where
  localNonceResult : Nat
  highestLocallyConfirmed : Nat
  highestSuggested : Nat
  nextNetworkNonce : Nat
deriving DecidableEq

/-- The pure computation of `getNonce` (source lines 184-198), performed
after the node reported `nextNetworkNonce`: returns `nextNonce` together
with `nonceDetails`. -/
def getNonceCalc (l : List TxMeta) (address : String) (nextNetworkNonce : Nat) :
    Nat × NonceDetails :=
  let highestLocallyConfirmed := _getHighestLocallyConfirmed l address
  let highestSuggested := Nat.max nextNetworkNonce highestLocallyConfirmed
  let pendingTxs := getSubmittedTransactions l (some address)
  let localNonceResult := jsOrZero (_getHighestContinuousFrom pendingTxs highestSuggested)
  let nextNonce := Nat.max nextNetworkNonce localNonceResult
  (nextNonce, ⟨localNonceResult, highestLocallyConfirmed, highestSuggested, nextNetworkNonce⟩)

/-- `getNonce(obj)` with the node's block/transaction-count round trip
(the two awaited queries collapsed into one `Except`): on failure the
`catch` block invokes `releaseNonceLock()` once and rethrows; on success
the lock stays held.  The second component counts the release
invocations performed inside `getNonce`. -/
def getNonce (st : LedgerState) (wallet : String)
    (blockAndCount : Except String Nat) :
    Except String (Nat × NonceDetails) × Nat :=
  match blockAndCount with
  | Except.error e => (Except.error e, 1)
  | Except.ok nnn => (Except.ok (getNonceCalc st.tx wallet nnn), 0)

/-- Count of list members that are defined nonces at least `s`; the
decreasing measure of the `_getHighestContinuousFrom` loop. -/
def countGe (nonces : List (Option Nat)) (s : Nat) : Nat :=
  match nonces with
  | [] => 0
  | none :: xs => countGe xs s
  | some n :: xs => if s ≤ n then countGe xs s + 1 else countGe xs s

/-- Modelled from the spec (4.3 step 3), the refinement-comparison
formula: the maximum nonce among this account's confirmed ledger
entries, plus one; `0` if none exist.  Stated over the nonce values
present, to be compared with the source's `_getHighestLocallyConfirmed`. -/
def specHighestLocallyConfirmed (l : List TxMeta) (a : String) : Nat :=
  let ns := (getConfirmedTransactions l (some a)).filterMap fun t => t.nonce
  if ns.isEmpty then 0 else ns.foldr Nat.max 0 + 1

/-- `awaitLimit = 100` (source line 231). -/
def awaitLimit : Nat := 100

/-- `awaitTime = 10` seconds (source line 232). -/
def awaitTime : Nat := 10

/-- The poll loop of the backpressure check (source lines 234-239):
`while (awaiting > awaitLimit) { await sleep(awaitTime * 1000); awaiting =
this.getSubmittedTransactions().length; }`.  The counts observed after
each sleep are supplied as the list `obs` (the ledger changes only
through other interleaved submissions while this one sleeps).  Returns
`(milliseconds slept, final awaiting)`, or `none` when the supplied
observations never let the loop exit. -/
def bpLoop : List Nat → Nat → Option (Nat × Nat)
  | obs, awaiting =>
    if awaitLimit < awaiting then
      match obs with
      | [] => none
      | o :: rest => (bpLoop rest o).map fun p => (awaitTime * 1000 + p.1, p.2)
    else some (0, awaiting)

/-- The backpressure check (source lines 233-240): the loop runs only when
the intent is a `send` and the system-wide submitted count has reached
`awaitLimit`. -/
def backpressure (isSend : Bool) (awaiting : Nat) (obs : List Nat) :
    Option (Nat × Nat) :=
  if isSend && decide (awaitLimit ≤ awaiting) then bpLoop obs awaiting
  else some (0, awaiting)

/-- A transaction receipt from the node's `send` dispatch. -/
structure SendReceipt where
  gasUsed : Nat
deriving DecidableEq

/-- The value slot of the `(error, result)` pair `submitTx` returns:
a `call` produces the node's raw return value, a `send` produces a
receipt. -/
inductive TxResult where
  | callRes (r : String)
  | sendRes (r : SendReceipt)
deriving DecidableEq

/-- The node collaborator's responses for one `submitTx` run: the
`call` dispatch, the block/transaction-count queries of `getNonce`
(collapsed into one `Except`), and the `send` dispatch. -/
structure NodeOracle where
  callResult : Except String String
  blockAndCount : Except String Nat
  sendResult : Except String SendReceipt

/-- `_to(promise)`: `[null, data]` on success, `[err, null]` on failure. -/
def _toPair {α : Type} : Except String α → Option String × Option α
  | Except.ok r => (none, some r)
  | Except.error e => (some e, none)

/-- The observable outcome of one `submitTx` run: either an exception
propagated out of `submitTx` (`thrown`) or the returned `[err, result]`
pair (`ret`), the final ledger state, and the lock accounting — whether
the per-address nonce lock of `getNonce` was acquired and how many times
its release capability was invoked, likewise for the optional per-address
tx lock of line 224, plus the total backpressure sleep time. -/
structure SubmitResult where
  thrown : Option String
  ret : Option (Option String × Option TxResult)
  state : LedgerState
  nonceLockAcquired : Bool
  nonceLockReleases : Nat
  txLockAcquired : Bool
  txLockReleases : Nat
  sleptMs : Nat
deriving DecidableEq

/-- The finalization block of `submitTx` (source lines 282-293): set the
status from `err`, record the gas figures on the entry, and `updateTx`. -/
def finalizeTx (st : LedgerState) (m : TxMeta) (err : Option String)
    (objGasUsed objTotalGasUsed : Nat) : LedgerState × TxMeta :=
  let m2 := { m with
    status := some (if err = none then Status.confirmed else Status.failed)
    gasUsed := some objGasUsed
    totalGasUsed := some objTotalGasUsed }
  ({ st with tx := updateTx st.tx m2 }, m2)

/-- `submitTx(obj, txMeta, lock)` (source lines 213-303), sequential run.
Inputs: the ledger state, `obj.wallet`, the intent, the node responses,
the `lock` flag, the backpressure observations, the clock value used by
`addTx`, and `obj.totalGasUsed` (the contract object's own accumulator,
`|| 0` applied).  Returns `none` when the backpressure loop never exits;
otherwise the outcome with lock accounting.  Notes kept from the
source: `getNonce` is called at line 228 outside the `try`, so its
failure propagates as a thrown error; `releaseNonceLock()` at line 249 is
reached only on the `send` branch; the outer `catch` (line 275) is
unreachable, because the only code inside the `try` that could throw is
the big-integer arithmetic of `updateStat`, and `bigInt(undefined)` is
zero rather than an error — so the non-`send` branch never releases the
nonce lock. -/
def submitTx (st : LedgerState) (wallet : String) (txMeta : TxMeta)
    (node : NodeOracle) (lock : Bool) (obs : List Nat) (now : Nat)
    (objTotalGasUsed0 : Nat) : Option SubmitResult :=
  if txMeta.txType = some TxType.call then
    some { thrown := none
           ret := some ((_toPair node.callResult).1,
                        (_toPair node.callResult).2.map TxResult.callRes)
           state := st
           nonceLockAcquired := false, nonceLockReleases := 0
           txLockAcquired := false, txLockReleases := 0
           sleptMs := 0 }
  else
    let txAcq := lock
    let a1 := addTx st txMeta now
    let st1 := a1.1
    let txMeta1 := a1.2
    match getNonce st1 wallet node.blockAndCount with
    | (Except.error e, rel) =>
        some { thrown := some e, ret := none, state := st1
               nonceLockAcquired := true, nonceLockReleases := rel
               txLockAcquired := txAcq, txLockReleases := 0, sleptMs := 0 }
    | (Except.ok nres, _) =>
        let nextNonce := nres.1
        let awaiting := (getSubmittedTransactions st1.tx none).length
        match backpressure (decide (txMeta1.txType = some TxType.send)) awaiting obs with
        | none => none
        | some bp =>
          if txMeta1.txType = some TxType.send then
            let txMeta2 := { txMeta1 with
              nonce := some nextNonce
              status := some Status.submitted
              optNonce := some nextNonce }
            let st2 := { st1 with tx := updateTx st1.tx txMeta2 }
            match node.sendResult with
            | Except.ok receipt =>
                let objGas := receipt.gasUsed
                let objTotal := objTotalGasUsed0 + objGas
                some { thrown := none
                       ret := some (none, some (TxResult.sendRes receipt))
                       state := (finalizeTx
                         (updateStatOpt st2 objGas txMeta2.optGasPrice)
                         txMeta2 none objGas objTotal).1
                       nonceLockAcquired := true, nonceLockReleases := 1
                       txLockAcquired := txAcq, txLockReleases := 1
                       sleptMs := bp.1 }
            | Except.error e =>
                some { thrown := none, ret := some (some e, none)
                       state := (finalizeTx
                         (updateStatOpt st2 0 txMeta2.optGasPrice)
                         txMeta2 (some e) 0 objTotalGasUsed0).1
                       nonceLockAcquired := true, nonceLockReleases := 1
                       txLockAcquired := txAcq, txLockReleases := 1
                       sleptMs := bp.1 }
          else
            let e0 := "proxyHandler: Unsupported method " ++ txMeta1.method
            some { thrown := none, ret := some (some e0, none)
                   state := (finalizeTx
                     (updateStatOpt st1 0 txMeta1.optGasPrice)
                     txMeta1 (some e0) 0 objTotalGasUsed0).1
                   nonceLockAcquired := true, nonceLockReleases := 0
                   txLockAcquired := txAcq, txLockReleases := 1
                   sleptMs := bp.1 }

/-- The classification step of `getTxMeta` (source lines 152-166):
`send` for methods in `obj._sent`, `call` for methods in `obj._call`,
`undefined` otherwise. -/
def classifyTxType (sent calls : List String) (method : String) : Option TxType :=
  if method ∈ sent then some TxType.send
  else if method ∈ calls then some TxType.call
  else none

/-- Gas-price defaulting of `getTxMeta` on the `send` branch (source
lines 156-159): keep the caller's price, otherwise
`Math.ceil(parseInt(gasPrice) * 1.2)` on the node's suggested price (the
binary-float multiply is abstracted to the exact rational 6/5).  Always
defined on the `send` branch. -/
def getTxMetaGasPrice (callerGasPrice : Option Nat) (networkGasPrice : Nat) :
    Option Nat :=
  match callerGasPrice with
  | none => some ((networkGasPrice * 6 + 4) / 5)
  | some p => some p

/-- The account used by the two-submission interleaving model. -/
def c2addr : String := "A"

/-- The intent both interleaved submissions carry into `submitTx`:
a `send` for the same account, as produced by `getTxMeta` (which always
assigns a gas price on the `send` branch). -/
def c2meta0 : TxMeta :=
  { address := c2addr, method := "m", optGasPrice := some 1
    txType := some TxType.send }

/-- The ledger entry of one interleaved submission after `addTx`. -/
def c2pending (i : Nat) : TxMeta :=
  { c2meta0 with id := some i, status := some Status.pending }

/-- The entry after lines 244-246: recorded as `submitted` with the
resolved nonce (`options.nonce` set alongside). -/
def c2submitted (i n : Nat) : TxMeta :=
  { c2pending i with
    nonce := some n, status := some Status.submitted, optNonce := some n }

/-- The entry after finalization (lines 282-293); receipts carry zero gas
in the interleaving model, so the gas snapshot fields are zero. -/
def c2final (i n : Nat) (ok : Bool) : TxMeta :=
  { c2submitted i n with
    status := some (if ok then Status.confirmed else Status.failed)
    gasUsed := some 0, totalGasUsed := some 0 }

/-- Thread-local state of one interleaved `submitTx` run: the program
counter (0 = before `addTx`, 1 = waiting on the nonce mutex, 2 = inside
`getNonce` before its node awaits resolve, 3 = nonce resolved and lock
held, 4 = recorded as submitted and dispatched, 5 = finalized), the id
`addTx` assigned, the resolved nonce, and one history variable:
whether the other submission's ledger entry already carried status
`failed` at the moment this thread's nonce computation ran. -/
structure ThreadSt where
  pc : Nat := 0
  myId : Option Nat := none
  myNonce : Option Nat := none
  ghostOtherFailed : Bool := false
deriving DecidableEq

/-- Per-thread node responses: the transaction count its `getNonce`
observes and whether its `send` dispatch succeeds (each thread performs
each query exactly once). -/
structure ThOracle where
  netNonce : Nat
  dispatchOk : Bool

/-- Shared state of the two-submission system: the ledger, the
per-account nonce mutex for `c2addr`, and the two threads (indexed by
`Bool`). -/
structure SysSt where
  ledger : LedgerState
  lockHeld : Bool
  th : Bool → ThreadSt

/-- Both submissions start before either has touched the ledger. -/
def c2init : SysSt := { ledger := ledger0, lockHeld := false, th := fun _ => {} }

/-- Replace one thread's local state. -/
def setTh (s : SysSt) (t : Bool) (ts : ThreadSt) : SysSt :=
  { s with th := fun b => if b = t then ts else s.th b }

/-- History-variable probe: does the ledger contain an entry with the
given id whose status is `failed`? -/
def ghostCheck (l : List TxMeta) (oid : Option Nat) : Bool :=
  l.any fun e => decide (e.id = oid) && decide (e.status = some Status.failed)

/-- One scheduler step of thread `t`, at the suspension-point granularity
of the source (the cooperative interleaving model of spec section 5):

* pc 0: the transient global barrier of `_globalLockFree()` (line 223),
  then `addTx` (line 226); the next suspension is the mutex acquisition.
* pc 1: `mutex.acquire()` inside `getNonce` (line 179); a no-op (still
  blocked) while the other thread holds the lock.
* pc 2: the `getBlock`/`getTransactionCount` awaits, then the synchronous
  nonce computation (lines 181-198) on the ledger as seen after the last
  await; the history variable records whether the other submission's
  entry was already `failed` here.
* pc 3: the backpressure check (lines 229-240) never fires with at most
  two intents in the ledger (`awaiting ≤ 2 < 100`), so the entry is
  recorded as `submitted` with the resolved nonce and the nonce lock is
  released in one synchronous block (lines 244-249).
* pc 4: the `send` dispatch await returns and the entry is finalized
  (lines 262-293); zero-gas receipts, so `updateStat` adds zero.
* pc 5: done.
-/
def c2step (orc : Bool → ThOracle) (s : SysSt) (t : Bool) : SysSt :=
  let ts := s.th t
  if ts.pc = 0 then
    let r := addTx s.ledger c2meta0 0
    setTh { s with ledger := r.1 } t { ts with pc := 1, myId := r.2.id }
  else if ts.pc = 1 then
    if s.lockHeld then s
    else setTh { s with lockHeld := true } t { ts with pc := 2 }
  else if ts.pc = 2 then
    let n := (getNonceCalc s.ledger.tx c2addr ((orc t).netNonce)).1
    let g := ghostCheck s.ledger.tx ((s.th (!t)).myId)
    setTh s t { ts with pc := 3, myNonce := some n, ghostOtherFailed := g }
  else if ts.pc = 3 then
    setTh { s with
      ledger := { s.ledger with
        tx := updateTx s.ledger.tx (c2submitted (ts.myId.getD 0) (ts.myNonce.getD 0)) }
      lockHeld := false } t { ts with pc := 4 }
  else if ts.pc = 4 then
    let fin := c2final (ts.myId.getD 0) (ts.myNonce.getD 0) (orc t).dispatchOk
    setTh { s with
      ledger := { updateStat s.ledger 0 1 with
        tx := updateTx s.ledger.tx fin } } t { ts with pc := 5 }
  else s

/-- Run a schedule (a list of thread choices) from a state. -/
def c2run (orc : Bool → ThOracle) : SysSt → List Bool → SysSt
  | s, [] => s
  | s, t :: rest => c2run orc (c2step orc s t) rest

/-- Thread `t` holds the nonce mutex (acquired at pc 1, released leaving
pc 3). -/
def inCrit (ts : ThreadSt) : Prop := ts.pc = 2 ∨ ts.pc = 3

/-- The ledger entry a thread currently accounts for, per its pc. -/
def entryOf (orc : Bool → ThOracle) (t : Bool) (ts : ThreadSt) : TxMeta :=
  if ts.pc ≤ 3 then c2pending (ts.myId.getD 0)
  else if ts.pc = 4 then c2submitted (ts.myId.getD 0) (ts.myNonce.getD 0)
  else c2final (ts.myId.getD 0) (ts.myNonce.getD 0) (orc t).dispatchOk

/-- The ledger's contents in terms of the two threads' entries. -/
def ledgerShape (orc : Bool → ThOracle) (s : SysSt) : Prop :=
  ((s.th true).pc = 0 ∧ (s.th false).pc = 0 ∧ s.ledger.tx = []) ∨
  (∃ t, 1 ≤ (s.th t).pc ∧ (s.th (!t)).pc = 0 ∧
    s.ledger.tx = [entryOf orc t (s.th t)] ∧
    s.ledger.idCounter = (s.th t).myId.getD 0 + 1) ∨
  (1 ≤ (s.th true).pc ∧ 1 ≤ (s.th false).pc ∧
    (s.th true).myId ≠ (s.th false).myId ∧
    (s.ledger.tx = [entryOf orc true (s.th true), entryOf orc false (s.th false)] ∨
     s.ledger.tx = [entryOf orc false (s.th false), entryOf orc true (s.th true)]))

/-- The inductive invariant of the two-submission system.  Its last
clause is the amended uniqueness property: once both threads have
resolved their nonces, and neither observed the other's entry as already
`failed` at resolution time, the two resolved nonces differ. -/
def c2Inv (orc : Bool → ThOracle) (s : SysSt) : Prop :=
  (∀ t, (s.th t).pc ≤ 5) ∧
  (s.lockHeld ↔ (inCrit (s.th true) ∨ inCrit (s.th false))) ∧
  ¬(inCrit (s.th true) ∧ inCrit (s.th false)) ∧
  (∀ t, 1 ≤ (s.th t).pc → ∃ i, (s.th t).myId = some i ∧ i < MSI) ∧
  (∀ t, 3 ≤ (s.th t).pc → (s.th t).myNonce.isSome) ∧
  ledgerShape orc s ∧
  (3 ≤ (s.th true).pc → 3 ≤ (s.th false).pc →
    (s.th true).ghostOtherFailed = false → (s.th false).ghostOtherFailed = false →
    (s.th true).myNonce ≠ (s.th false).myNonce)

/-- Oracle of the interleaving counterexample: thread `true` observes
network nonce 0 and its dispatch fails; thread `false` observes network
nonce 0 (the failed transaction never reached the chain) and succeeds. -/
def cexOrc : Bool → ThOracle := fun t =>
  if t then { netNonce := 0, dispatchOk := false }
  else { netNonce := 0, dispatchOk := true }

/-- The interleaving of the counterexample: thread `true` resolves nonce
0 and records it, thread `false` blocks on the mutex, thread `true`
fails its dispatch and finalizes as `failed`, then thread `false`
resolves — the failed entry is in neither the confirmed nor the
submitted filter, so it also resolves nonce 0. -/
def cexSched : List Bool :=
  [true, true, false, true, true, false, true, false, false, false]

/-- Oracle in which both dispatches succeed. -/
def okOrc : Bool → ThOracle := fun _ => { netNonce := 0, dispatchOk := true }

/-- The sequential schedule: thread `true` runs to completion, then
thread `false`. -/
def seqSched : List Bool :=
  [true, true, true, true, true, false, false, false, false, false]

/-- The confirmed entry of the C1 scenario (`nextNetworkNonce = 3`, one
confirmed entry with nonce 4, no submitted entries). -/
def c1ScenarioEntry : TxMeta :=
  { address := "A", status := some Status.confirmed, nonce := some 4 }

/-- A node whose every response succeeds (zero-gas receipt). -/
def nodeOk : NodeOracle :=
  { callResult := Except.ok "ok", blockAndCount := Except.ok 0
    sendResult := Except.ok { gasUsed := 0 } }

/-- An intent whose method is supported neither as `send` nor as `call`
(`txType` stays `undefined` in `getTxMeta`), with a caller-supplied gas
price. -/
def c3meta : TxMeta := { address := "A", method := "zz", optGasPrice := some 1 }

/-- An in-flight entry used to fill the ledger for the backpressure
scenario. -/
def c4entry : TxMeta :=
  { address := "A", method := "m", txType := some TxType.send, id := some 7
    status := some Status.submitted, nonce := some 3, optGasPrice := some 1 }

/-- A ledger holding exactly 100 `submitted` entries. -/
def c4ledger : LedgerState := { tx := List.replicate 100 c4entry }

/-- The 101st `send` intent submitted against `c4ledger`. -/
def c4meta : TxMeta :=
  { address := "A", method := "m", optGasPrice := some 1
    txType := some TxType.send }

/-- An intent with the caller-supplied id 5. -/
def c8meta : TxMeta := { id := some 5 }

/-- Both interleaved submissions have completed. -/
def c2BothDone (s : SysSt) : Prop :=
  (s.th true).pc = 5 ∧ (s.th false).pc = 5

/-- The two interleaved submissions resolved different nonces. -/
def c2DistinctNonces (s : SysSt) : Prop :=
  (s.th true).myNonce ≠ (s.th false).myNonce

/-- The finalized ledger entry of an unsupported-method intent: the
appended entry with status `failed` and the gas snapshot fields. -/
def c5finalEntry (st : LedgerState) (m : TxMeta) (now g0 : Nat) : TxMeta :=
  { m with
    id := some (addTxId m.id st.idCounter).1
    time := now
    status := some Status.failed
    gasUsed := some 0
    totalGasUsed := some g0 }

/-- JS `x || 0` on a `Nat` is the identity. -/
theorem jsOrZero_eq (n : Nat) : jsOrZero n = n := by
  by_cases h : n = 0 <;> simp [jsOrZero, h]

/-- Membership in the status filter. -/
theorem mem_getFilteredByStatus {l : List TxMeta} {s : Status} {e : TxMeta} :
    e ∈ getFilteredByStatus l s ↔ e ∈ l ∧ e.status = some s := by
  simp [getFilteredByStatus, List.mem_filter]

/-- Membership in `getSubmittedTransactions` with an address. -/
theorem mem_getSubmittedTransactions {l : List TxMeta} {a : String} {e : TxMeta} :
    e ∈ getSubmittedTransactions l (some a) ↔
      e ∈ l ∧ e.status = some Status.submitted ∧ e.address = a := by
  simp [getSubmittedTransactions, filterByAddress, getFilteredByStatus,
    List.mem_filter, and_assoc]
  exact fun _ => and_comm

/-- Membership in `getConfirmedTransactions` with an address. -/
theorem mem_getConfirmedTransactions {l : List TxMeta} {a : String} {e : TxMeta} :
    e ∈ getConfirmedTransactions l (some a) ↔
      e ∈ l ∧ e.status = some Status.confirmed ∧ e.address = a := by
  simp [getConfirmedTransactions, filterByAddress, getFilteredByStatus,
    List.mem_filter, and_assoc]
  exact fun _ => and_comm

/-- The loop measure never exceeds the list length. -/
theorem countGe_le_length (nonces : List (Option Nat)) (s : Nat) :
    countGe nonces s ≤ nonces.length := by
  induction nonces with
  | nil => simp [countGe]
  | cons x xs ih =>
    cases x with
    | none => simp only [countGe, List.length_cons]; omega
    | some n =>
      simp only [countGe, List.length_cons]
      split <;> omega

/-- The loop measure is antitone in the start point. -/
theorem countGe_mono (nonces : List (Option Nat)) (s : Nat) :
    countGe nonces (s + 1) ≤ countGe nonces s := by
  induction nonces with
  | nil => simp [countGe]
  | cons x xs ih =>
    cases x with
    | none => simpa [countGe] using ih
    | some n =>
      simp only [countGe]
      by_cases h : s + 1 ≤ n
      · rw [if_pos h, if_pos (by omega : s ≤ n)]; omega
      · rw [if_neg h]; split <;> omega

/-- Each loop iteration strictly decreases the measure. -/
theorem countGe_succ_lt {nonces : List (Option Nat)} {s : Nat}
    (h : some s ∈ nonces) : countGe nonces (s + 1) < countGe nonces s := by
  induction nonces with
  | nil => cases h
  | cons x xs ih =>
    rcases List.mem_cons.mp h with h1 | h2
    · cases h1
      simp only [countGe, if_pos (Nat.le_refl s), if_neg (by omega : ¬ s + 1 ≤ s)]
      have := countGe_mono xs s
      omega
    · cases x with
      | none => simpa [countGe] using ih h2
      | some n =>
        have hlt := ih h2
        simp only [countGe]
        by_cases ha : s + 1 ≤ n
        · rw [if_pos ha, if_pos (by omega : s ≤ n)]; omega
        · rw [if_neg ha]
          by_cases hb : s ≤ n
          · rw [if_pos hb]; omega
          · rw [if_neg hb]; omega

/-- The loop never stops on a member: given enough fuel, the returned
value is absent from the nonce list. -/
theorem hcFrom_not_mem (nonces : List (Option Nat)) :
    ∀ fuel start, countGe nonces start < fuel →
      some (hcFrom nonces start fuel) ∉ nonces := by
  intro fuel
  induction fuel with
  | zero => intro s h; omega
  | succ f ih =>
    intro s h
    simp only [hcFrom]
    split
    · next hmem => exact ih (s + 1) (by have := countGe_succ_lt hmem; omega)
    · next hmem => exact hmem

/-- The loop result is at least the start point. -/
theorem hcFrom_le (nonces : List (Option Nat)) :
    ∀ fuel start, start ≤ hcFrom nonces start fuel := by
  intro fuel
  induction fuel with
  | zero => intro s; exact Nat.le_refl s
  | succ f ih =>
    intro s
    simp only [hcFrom]
    split
    · exact Nat.le_trans (Nat.le_succ s) (ih (s + 1))
    · exact Nat.le_refl s

/-- Everything between the start point and the loop result is a member:
the loop stops at the first free value. -/
theorem hcFrom_mem_of_lt (nonces : List (Option Nat)) :
    ∀ fuel start k, start ≤ k → k < hcFrom nonces start fuel →
      some k ∈ nonces := by
  intro fuel
  induction fuel with
  | zero =>
    intro s k h1 h2
    simp only [hcFrom] at h2
    omega
  | succ f ih =>
    intro s k h1 h2
    simp only [hcFrom] at h2
    split at h2
    · next hmem =>
      rcases Nat.eq_or_lt_of_le h1 with h | h
      · cases h; exact hmem
      · exact ih (s + 1) k h h2
    · next => omega

/-- `_getHighestContinuousFrom` returns at least the start point. -/
theorem _getHighestContinuousFrom_le (l : List TxMeta) (s : Nat) :
    s ≤ _getHighestContinuousFrom l s :=
  hcFrom_le _ _ s

/-- `_getHighestContinuousFrom` never returns a nonce present in the
list: the fuel `l.length + 1` always suffices. -/
theorem _getHighestContinuousFrom_not_mem (l : List TxMeta) (s : Nat) :
    some (_getHighestContinuousFrom l s) ∉ l.map fun t => t.nonce := by
  apply hcFrom_not_mem
  have h1 := countGe_le_length (l.map fun t => t.nonce) s
  simp only [List.length_map] at h1
  omega

/-- Minimality of `_getHighestContinuousFrom`: every value from the
start point up to the result is a nonce in the list. -/
theorem _getHighestContinuousFrom_mem (l : List TxMeta) (s k : Nat)
    (h1 : s ≤ k) (h2 : k < _getHighestContinuousFrom l s) :
    some k ∈ l.map fun t => t.nonce :=
  hcFrom_mem_of_lt _ _ s k h1 h2

/-- On a nonempty list of defined nonces, the JS maximum is defined and
equals the fold of `Nat.max`. -/
theorem maxNonces_map_some (v : Nat) (vs : List Nat) :
    maxNonces ((v :: vs).map some) = some ((v :: vs).foldr Nat.max 0) := by
  induction vs generalizing v with
  | nil => simp [maxNonces]
  | cons w us ih =>
    show combineNaN (some v) (maxNonces ((w :: us).map some)) =
      some (Nat.max v ((w :: us).foldr Nat.max 0))
    rw [ih w]
    rfl

/-- When every entry of a list has a defined nonce, mapping the nonce
field factors through the defined values. -/
theorem map_nonce_eq_of_isSome (l : List TxMeta)
    (h : ∀ t ∈ l, (t.nonce).isSome) :
    (l.map fun t => t.nonce) = ((l.filterMap fun t => t.nonce).map some) := by
  induction l with
  | nil => rfl
  | cons x xs ih =>
    have hx := h x (by simp)
    rcases Option.isSome_iff_exists.mp hx with ⟨n, hn⟩
    simp [List.filterMap_cons, hn, ih fun t ht => h t (by simp [ht])]

/-- The JS maximum of a nonempty all-defined list is defined and bounds
every member. -/
theorem maxNonces_bound : ∀ (L : List (Option Nat)), L ≠ [] →
    (∀ x ∈ L, x.isSome) →
    ∃ m, maxNonces L = some m ∧ ∀ n, some n ∈ L → n ≤ m
  | [], h, _ => absurd rfl h
  | [x], _, hall => by
    rcases Option.isSome_iff_exists.mp (hall x (by simp)) with ⟨a, ha⟩
    subst ha
    refine ⟨a, rfl, ?_⟩
    intro n hn
    rcases List.mem_cons.mp hn with h1 | h2
    · injection h1 with h1; omega
    · cases h2
  | x :: y :: ys, _, hall => by
    rcases Option.isSome_iff_exists.mp (hall x (by simp)) with ⟨a, ha⟩
    rcases maxNonces_bound (y :: ys) (by simp) (fun z hz => hall z (by simp [hz]))
      with ⟨m, hm, hb⟩
    subst ha
    refine ⟨Nat.max a m, ?_, ?_⟩
    · show combineNaN (some a) (maxNonces (y :: ys)) = some (Nat.max a m)
      rw [hm]
      rfl
    · intro n hn
      rcases List.mem_cons.mp hn with h1 | h2
      · injection h1 with h1
        subst h1
        exact Nat.le_max_left _ _
      · exact Nat.le_trans (hb n h2) (Nat.le_max_right _ _)

/-- Unfolding: the `highestSuggested` component of `getNonceCalc`. -/
theorem getNonceCalc_hs (l : List TxMeta) (a : String) (nnn : Nat) :
    (getNonceCalc l a nnn).2.highestSuggested =
      Nat.max nnn (_getHighestLocallyConfirmed l a) := rfl

/-- Unfolding: the `highestLocallyConfirmed` component of `getNonceCalc`. -/
theorem getNonceCalc_hlc (l : List TxMeta) (a : String) (nnn : Nat) :
    (getNonceCalc l a nnn).2.highestLocallyConfirmed =
      _getHighestLocallyConfirmed l a := rfl

/-- Unfolding: the `localNonceResult` component of `getNonceCalc`. -/
theorem getNonceCalc_lnr (l : List TxMeta) (a : String) (nnn : Nat) :
    (getNonceCalc l a nnn).2.localNonceResult =
      _getHighestContinuousFrom (getSubmittedTransactions l (some a))
        (Nat.max nnn (_getHighestLocallyConfirmed l a)) := by
  show jsOrZero _ = _
  rw [jsOrZero_eq]

/-- The local nonce result dominates the suggested start point. -/
theorem getNonceCalc_hs_le_lnr (l : List TxMeta) (a : String) (nnn : Nat) :
    (getNonceCalc l a nnn).2.highestSuggested ≤
      (getNonceCalc l a nnn).2.localNonceResult := by
  rw [getNonceCalc_hs, getNonceCalc_lnr]
  exact _getHighestContinuousFrom_le _ _

/-- `nextNonce` coincides with `localNonceResult`: the final
`Math.max(nextNetworkNonce, localNonceResult)` never picks the network
value, which is already folded into the start point. -/
theorem getNonceCalc_fst (l : List TxMeta) (a : String) (nnn : Nat) :
    (getNonceCalc l a nnn).1 = (getNonceCalc l a nnn).2.localNonceResult := by
  have h1 := getNonceCalc_hs_le_lnr l a nnn
  rw [getNonceCalc_hs] at h1
  have h2 : nnn ≤ (getNonceCalc l a nnn).2.localNonceResult :=
    Nat.le_trans (Nat.le_max_left _ _) h1
  show Nat.max nnn ((getNonceCalc l a nnn).2.localNonceResult) = _
  exact Nat.max_eq_right h2

/-- The resolved nonce is never the nonce of a `submitted` entry of the
same account. -/
theorem getNonceCalc_not_submitted {l : List TxMeta} {a : String} (nnn : Nat)
    {e : TxMeta} (he : e ∈ l) (ha : e.address = a)
    (hs : e.status = some Status.submitted) {n : Nat} (hn : e.nonce = some n) :
    (getNonceCalc l a nnn).1 ≠ n := by
  intro hEq
  have hmem : e ∈ getSubmittedTransactions l (some a) :=
    mem_getSubmittedTransactions.mpr ⟨he, hs, ha⟩
  have hnn : some n ∈ (getSubmittedTransactions l (some a)).map fun t => t.nonce :=
    List.mem_map.mpr ⟨e, hmem, hn⟩
  have hnot := _getHighestContinuousFrom_not_mem
    (getSubmittedTransactions l (some a))
    (Nat.max nnn (_getHighestLocallyConfirmed l a))
  rw [getNonceCalc_fst, getNonceCalc_lnr] at hEq
  rw [hEq] at hnot
  exact hnot hnn

/-- The resolved nonce strictly exceeds the nonce of every `confirmed`
entry of the account, provided the account's confirmed entries all carry
nonces. -/
theorem getNonceCalc_gt_confirmed {l : List TxMeta} {a : String} (nnn : Nat)
    {e : TxMeta} {n : Nat} (he : e ∈ l) (ha : e.address = a)
    (hs : e.status = some Status.confirmed) (hn : e.nonce = some n)
    (hall : ∀ e2 ∈ getConfirmedTransactions l (some a), (e2.nonce).isSome) :
    n < (getNonceCalc l a nnn).1 := by
  have hmem : e ∈ getConfirmedTransactions l (some a) :=
    mem_getConfirmedTransactions.mpr ⟨he, hs, ha⟩
  have hne : (getConfirmedTransactions l (some a)).map (fun t => t.nonce) ≠ [] := by
    intro hemp
    have : e.nonce ∈ (getConfirmedTransactions l (some a)).map fun t => t.nonce :=
      List.mem_map.mpr ⟨e, hmem, rfl⟩
    rw [hemp] at this
    cases this
  have hallm : ∀ x ∈ (getConfirmedTransactions l (some a)).map fun t => t.nonce,
      x.isSome := by
    intro x hx
    rcases List.mem_map.mp hx with ⟨e2, he2, rfl⟩
    exact hall e2 he2
  rcases maxNonces_bound _ hne hallm with ⟨m, hm, hb⟩
  have hnm : n ≤ m := hb n (List.mem_map.mpr ⟨e, hmem, hn⟩)
  have hhlc : _getHighestLocallyConfirmed l a = m + 1 := by
    unfold _getHighestLocallyConfirmed _getHighestNonce
    rw [hm]
  have h1 := getNonceCalc_hs_le_lnr l a nnn
  rw [getNonceCalc_hs, hhlc] at h1
  have h2 : m + 1 ≤ (getNonceCalc l a nnn).2.localNonceResult :=
    Nat.le_trans (Nat.le_max_right _ _) h1
  rw [getNonceCalc_fst]
  omega

/-- `updateTx` is the identity when no entry carries the target id. -/
theorem updateTx_of_not_mem {l : List TxMeta} {m : TxMeta}
    (h : ∀ t ∈ l, t.id ≠ m.id) : updateTx l m = l := by
  induction l with
  | nil => rfl
  | cons x xs ih =>
    show (if x.id = m.id then m :: xs else x :: updateTx xs m) = x :: xs
    rw [if_neg (h x (by simp)), ih fun t ht => h t (by simp [ht])]

/-- `updateTx` replaces the freshly appended entry when no earlier entry
shares its id. -/
theorem updateTx_append_last {l : List TxMeta} {a m : TxMeta}
    (hl : ∀ t ∈ l, t.id ≠ m.id) (ha : a.id = m.id) :
    updateTx (l ++ [a]) m = l ++ [m] := by
  induction l with
  | nil => simp [updateTx, ha]
  | cons x xs ih =>
    show (if x.id = m.id then m :: (xs ++ [a]) else x :: updateTx (xs ++ [a]) m) = _
    rw [if_neg (hl x (by simp)), ih fun t ht => hl t (by simp [ht])]
    rfl

/-- `updateTx` on a head match. -/
theorem updateTx_cons_eq {x : TxMeta} {xs : List TxMeta} {m : TxMeta}
    (h : x.id = m.id) : updateTx (x :: xs) m = m :: xs := by
  show (if x.id = m.id then m :: xs else x :: updateTx xs m) = m :: xs
  rw [if_pos h]

/-- `updateTx` skips a non-matching head. -/
theorem updateTx_cons_ne {x : TxMeta} {xs : List TxMeta} {m : TxMeta}
    (h : x.id ≠ m.id) : updateTx (x :: xs) m = x :: updateTx xs m := by
  show (if x.id = m.id then m :: xs else x :: updateTx xs m) = _
  rw [if_neg h]

/-- The source's `_getHighestLocallyConfirmed` agrees with the spec
formula whenever the account's confirmed entries all carry nonces. -/
theorem hlc_eq_spec (l : List TxMeta) (a : String)
    (hconf : ∀ t ∈ getConfirmedTransactions l (some a), (t.nonce).isSome) :
    _getHighestLocallyConfirmed l a = specHighestLocallyConfirmed l a := by
  unfold _getHighestLocallyConfirmed _getHighestNonce specHighestLocallyConfirmed
  rw [map_nonce_eq_of_isSome _ hconf]
  cases hns : (getConfirmedTransactions l (some a)).filterMap (fun t => t.nonce) with
  | nil => simp [maxNonces]
  | cons v vs =>
    rw [maxNonces_map_some v vs]
    simp

/-- Claim C1: for every account, `resolve` (`getNonce`) returns
`nextNonce = max(nextNetworkNonce, localNonceResult)`, where
`highestLocallyConfirmed` is the maximum nonce among the account's
confirmed ledger entries plus one (0 if none exist), `highestSuggested =
max(nextNetworkNonce, highestLocallyConfirmed)`, and `localNonceResult`
is the first integer `n ≥ highestSuggested` such that no submitted
ledger entry of the account has nonce exactly `n` (the scenario instance
with `nextNetworkNonce = 3` and one confirmed entry of nonce 4 is the
witness). -/
theorem c1_nonce_resolution (l : List TxMeta) (a : String) (nnn : Nat)
    (hconf : ∀ t ∈ getConfirmedTransactions l (some a), (t.nonce).isSome) :
    (getNonceCalc l a nnn).1 =
      Nat.max nnn (getNonceCalc l a nnn).2.localNonceResult ∧
    (getNonceCalc l a nnn).2.highestLocallyConfirmed =
      specHighestLocallyConfirmed l a ∧
    (getNonceCalc l a nnn).2.highestSuggested =
      Nat.max nnn (getNonceCalc l a nnn).2.highestLocallyConfirmed ∧
    (getNonceCalc l a nnn).2.highestSuggested ≤
      (getNonceCalc l a nnn).2.localNonceResult ∧
    (∀ e ∈ getSubmittedTransactions l (some a),
      e.nonce ≠ some ((getNonceCalc l a nnn).2.localNonceResult)) ∧
    (∀ k, (getNonceCalc l a nnn).2.highestSuggested ≤ k →
      k < (getNonceCalc l a nnn).2.localNonceResult →
      ∃ e ∈ getSubmittedTransactions l (some a), e.nonce = some k) := by
  refine ⟨rfl, ?_, rfl, getNonceCalc_hs_le_lnr l a nnn, ?_, ?_⟩
  · rw [getNonceCalc_hlc]
    exact hlc_eq_spec l a hconf
  · intro e he hn
    rcases mem_getSubmittedTransactions.mp he with ⟨h1, h2, h3⟩
    exact getNonceCalc_not_submitted nnn h1 h3 h2 hn (getNonceCalc_fst l a nnn)
  · intro k h1 h2
    have hm : some k ∈ (getSubmittedTransactions l (some a)).map fun t => t.nonce := by
      rw [getNonceCalc_hs] at h1
      rw [getNonceCalc_lnr] at h2
      exact _getHighestContinuousFrom_mem _ _ k h1 h2
    rcases List.mem_map.mp hm with ⟨e, he, hne⟩
    exact ⟨e, he, hne⟩

/-- Witness for C1: the spec scenario (`nextNetworkNonce = 3`, exactly
one confirmed entry with nonce 4, no submitted entries) resolves
`nextNonce = 5`. -/
theorem c1_nonce_resolution_witness :
    (∀ t ∈ getConfirmedTransactions [c1ScenarioEntry] (some "A"), (t.nonce).isSome) ∧
    (getNonceCalc [c1ScenarioEntry] "A" 3).1 = 5 ∧
    (getNonceCalc [c1ScenarioEntry] "A" 3).2.highestLocallyConfirmed = 5 ∧
    (getNonceCalc [c1ScenarioEntry] "A" 3).1 =
      Nat.max 3 (getNonceCalc [c1ScenarioEntry] "A" 3).2.localNonceResult := by
  refine ⟨by decide, by decide, by decide,
    (c1_nonce_resolution [c1ScenarioEntry] "A" 3 (by decide)).1⟩

/-- Claim C7: for every ledger state and every transaction count reported
by the node, the `localNonceResult` component returned by `resolve`
(`getNonce`) is at least `nextNetworkNonce`: the local view never
regresses the network-observed nonce. -/
theorem c7_local_ge_network (l : List TxMeta) (a : String) (nnn : Nat) :
    nnn ≤ (getNonceCalc l a nnn).2.localNonceResult := by
  have h1 := getNonceCalc_hs_le_lnr l a nnn
  rw [getNonceCalc_hs] at h1
  exact Nat.le_trans (Nat.le_max_left _ _) h1

/-- Counterexample for C9: `updateStat` does not add the cost
`gasUsed * gasPrice` to `totalGasUsed` — with `gasUsed = 2` and
`gasPrice = 3` on the empty ledger the accumulator becomes 2, not 6. -/
theorem c9_counterexample :
    ¬ ((updateStat ledger0 2 3).totalGasUsed = ledger0.totalGasUsed + 2 * 3) := by
  decide

/-- Claim C9 (amended): `updateStat` (`recordCost`) computes the cost
`gasUsed * gasPrice` in exact integer arithmetic and adds its
base-currency (ether) conversion to `totalEthSpent`, while adding
`gasUsed` itself (not the cost) to `totalGasUsed`; no floating-point
arithmetic enters the integer cost computation. -/
theorem c9_amended (st : LedgerState) (gasUsed gasPrice : Nat) :
    (updateStat st gasUsed gasPrice).totalGasUsed = st.totalGasUsed + gasUsed ∧
    (updateStat st gasUsed gasPrice).totalEthSpent =
      st.totalEthSpent + ((gasUsed * gasPrice : Nat) : Rat) / (10 ^ 18 : Rat) :=
  ⟨rfl, rfl⟩

/-- Claim C10: `updateTx` on an intent whose id matches no ledger entry
raises no error (it is a total function) and leaves the ordered entry
sequence unchanged — length and every indexed entry included. -/
theorem c10_updateTx_missing_id (l : List TxMeta) (m : TxMeta)
    (h : ∀ t ∈ l, t.id ≠ m.id) : updateTx l m = l :=
  updateTx_of_not_mem h

/-- Witness for C10: updating id 5 against a ledger holding only id 7
leaves the ledger unchanged. -/
theorem c10_updateTx_missing_id_witness :
    (∀ t ∈ [c4entry], t.id ≠ c8meta.id) ∧ updateTx [c4entry] c8meta = [c4entry] :=
  ⟨by decide, c10_updateTx_missing_id [c4entry] c8meta (by decide)⟩

/-- Closed form of the generated-id stream. -/
theorem idStream_eq (n : Nat) : ∀ c, idStream c n = (c % MSI + n) % MSI := by
  induction n with
  | zero =>
    intro c
    show c % MSI = (c % MSI + 0) % MSI
    rw [Nat.add_zero]
    exact (Nat.mod_mod_of_dvd c (dvd_refl MSI)).symm
  | succ k ih =>
    intro c
    show idStream (c % MSI + 1) k = (c % MSI + (k + 1)) % MSI
    rw [ih (c % MSI + 1), Nat.mod_add_mod]
    congr 1
    omega

/-- Distinctness of generated ids within one wraparound window. -/
theorem idStream_inj (c n m : Nat) (hn : n < MSI) (hm : m < MSI)
    (hne : n ≠ m) : idStream c n ≠ idStream c m := by
  intro heq
  rw [idStream_eq n c, idStream_eq m c] at heq
  have h2 : n % MSI = m % MSI := Nat.ModEq.add_left_cancel' (c % MSI) heq
  rw [Nat.mod_eq_of_lt hn, Nat.mod_eq_of_lt hm] at h2
  exact hne h2

/-- Counterexample for C8: two `addTx` calls with the caller-supplied id
5 produce two ledger entries sharing one id — ids are not unique within
the ledger's lifetime. -/
theorem c8_counterexample :
    ((addTx (addTx ledger0 c8meta 0).1 c8meta 0).1.tx.map fun t => t.id) =
      [some 5, some 5] := by
  decide

/-- Claim C8 (amended): an intent appended without a caller-supplied id
receives the generated id `counter % MAX_SAFE_INTEGER` with the counter
advanced (modulo wraparound), and any two generated ids handed out within
fewer than `2^53 - 1` generations are distinct; uniqueness does not
extend to caller-supplied ids. -/
theorem c8_amended :
    (∀ (st : LedgerState) (args : TxMeta) (now : Nat), args.id = none →
      (addTx st args now).2.id = some (st.idCounter % MSI) ∧
      (addTx st args now).1.idCounter = st.idCounter % MSI + 1) ∧
    (∀ c n m, n < MSI → m < MSI → n ≠ m → idStream c n ≠ idStream c m) := by
  constructor
  · intro st args now h
    constructor
    · show some (addTxId args.id st.idCounter).1 = _
      rw [h]
      rfl
    · show (addTxId args.id st.idCounter).2 = _
      rw [h]
      rfl
  · intro c n m hn hm hne
    exact idStream_inj c n m hn hm hne

/-- Witness for C8 (amended): the first generation from seed 0 yields id
0, and the first two generated ids differ. -/
theorem c8_amended_witness :
    ((addTx ledger0 {} 0).2.id = some (ledger0.idCounter % MSI) ∧
     (addTx ledger0 {} 0).1.idCounter = ledger0.idCounter % MSI + 1) ∧
    idStream 0 0 ≠ idStream 0 1 :=
  ⟨c8_amended.1 ledger0 {} 0 rfl,
   c8_amended.2 0 0 1 (by decide) (by decide) (by decide)⟩

/-- Behaviour of the backpressure poll loop: when it exits, the final
observed count is at most the threshold (not strictly below it), and it
sleeps at all exactly when the initial count strictly exceeds the
threshold; every sleep is a whole 10-second interval. -/
theorem bpLoop_spec : ∀ (obs : List Nat) (a ms fin : Nat),
    bpLoop obs a = some (ms, fin) →
    fin ≤ awaitLimit ∧ (0 < ms ↔ awaitLimit < a) ∧ (awaitTime * 1000) ∣ ms := by
  intro obs
  induction obs with
  | nil =>
    intro a ms fin h
    rw [bpLoop] at h
    by_cases ha : awaitLimit < a
    · rw [if_pos ha] at h
      cases h
    · rw [if_neg ha] at h
      injection h with h
      rw [Prod.mk.injEq] at h
      obtain ⟨h1, h2⟩ := h
      subst h1
      subst h2
      exact ⟨by omega, ⟨fun h0 => absurd h0 (by omega), fun hl => absurd hl ha⟩,
        dvd_zero _⟩
  | cons o rest ih =>
    intro a ms fin h
    rw [bpLoop] at h
    by_cases ha : awaitLimit < a
    · rw [if_pos ha] at h
      cases hb : bpLoop rest o with
      | none =>
        rw [hb] at h
        cases h
      | some p =>
        rw [hb] at h
        simp only [Option.map_some'] at h
        injection h with h
        rw [Prod.mk.injEq] at h
        obtain ⟨h1, h2⟩ := h
        obtain ⟨g1, g2, g3⟩ := ih o p.1 p.2 (by rw [hb])
        subst h1
        subst h2
        refine ⟨g1, ⟨fun _ => ha, fun _ => ?_⟩, dvd_add (dvd_refl _) g3⟩
        have hsl : awaitTime * 1000 = 10000 := rfl
        omega
    · rw [if_neg ha] at h
      injection h with h
      rw [Prod.mk.injEq] at h
      obtain ⟨h1, h2⟩ := h
      subst h1
      subst h2
      exact ⟨by omega, ⟨fun h0 => absurd h0 (by omega), fun hl => absurd hl ha⟩,
        dvd_zero _⟩

/-- Counterexample for C4: when the check runs with the submitted count
exactly at the threshold (the 101st submission: 100 prior `submitted`
entries), `submitTx` does not suspend at all — it completes with zero
sleeps even though no future observation was supplied, because the `if`
tests `awaiting >= 100` but the `while` loop tests `awaiting > 100`. -/
theorem c4_counterexample :
    (submitTx c4ledger "A" c4meta nodeOk false [] 0 0).map
      (fun r => (r.sleptMs, r.ret.isSome, r.thrown)) = some (0, true, none) := by
  decide

/-- Claim C4 (amended): a `send` suspends in the backpressure loop
exactly when the system-wide submitted count strictly exceeds the
threshold of 100 at the check (at exactly 100 it proceeds immediately),
polling in whole 10-second sleeps until the observed count is at most
100 (not strictly below it); the 102nd concurrent submission (101 prior
submitted entries) suspends until a prior entry's status leaves
`submitted`. -/
theorem c4_amended (awaiting : Nat) (obs : List Nat) (ms fin : Nat)
    (h : backpressure true awaiting obs = some (ms, fin)) :
    fin ≤ awaitLimit ∧ (0 < ms ↔ awaitLimit < awaiting) ∧
      (awaitTime * 1000) ∣ ms := by
  rw [backpressure] at h
  by_cases ha : awaitLimit ≤ awaiting
  · rw [if_pos (by simp [ha])] at h
    exact bpLoop_spec obs awaiting ms fin h
  · rw [if_neg (by simp [ha])] at h
    injection h with h
    rw [Prod.mk.injEq] at h
    obtain ⟨h1, h2⟩ := h
    subst h1
    subst h2
    exact ⟨by omega, ⟨fun h0 => absurd h0 (by omega), fun hl => absurd hl (by omega)⟩,
      dvd_zero _⟩

/-- Witness for C4 (amended): at a submitted count of 101 with one
observation of 50, the loop sleeps once (10 seconds) and exits at 50. -/
theorem c4_amended_witness :
    backpressure true 101 [50] = some (awaitTime * 1000, 50) ∧
    (50 ≤ awaitLimit ∧ (0 < awaitTime * 1000 ↔ awaitLimit < 101) ∧
      (awaitTime * 1000) ∣ awaitTime * 1000) :=
  ⟨by decide, c4_amended 101 [50] (awaitTime * 1000) 50 (by decide)⟩

/-- Claim C6: a `call` intent bypasses all nonce and ledger machinery:
`submitTx` dispatches directly to the node and returns its result or
error unmodified; the ledger state (entries, `totalGasUsed`,
`totalEthSpent`) is untouched and no lock is acquired and no nonce
resolution occurs. -/
theorem c6_call_bypasses (st : LedgerState) (w : String) (m : TxMeta)
    (node : NodeOracle) (lock : Bool) (obs : List Nat) (now g0 : Nat)
    (h : m.txType = some TxType.call) :
    submitTx st w m node lock obs now g0 =
      some { thrown := none
             ret := some ((_toPair node.callResult).1,
                          (_toPair node.callResult).2.map TxResult.callRes)
             state := st
             nonceLockAcquired := false, nonceLockReleases := 0
             txLockAcquired := false, txLockReleases := 0
             sleptMs := 0 } := by
  rw [submitTx, if_pos h]

/-- Witness for C6: a concrete `call` intent against the empty ledger
returns the node's value with the state unchanged. -/
theorem c6_call_bypasses_witness :
    ({ c4meta with txType := some TxType.call } : TxMeta).txType =
      some TxType.call ∧
    submitTx ledger0 "A" { c4meta with txType := some TxType.call }
        nodeOk true [] 0 0 =
      some { thrown := none
             ret := some ((_toPair nodeOk.callResult).1,
                          (_toPair nodeOk.callResult).2.map TxResult.callRes)
             state := ledger0
             nonceLockAcquired := false, nonceLockReleases := 0
             txLockAcquired := false, txLockReleases := 0
             sleptMs := 0 } :=
  ⟨rfl, c6_call_bypasses ledger0 "A" _ nodeOk true [] 0 0 rfl⟩

/-- `addTx` leaves the intent's classification untouched. -/
theorem addTx_txType (st : LedgerState) (m : TxMeta) (now : Nat) :
    (addTx st m now).2.txType = m.txType := rfl

/-- `addTx` leaves the caller's gas price untouched. -/
theorem addTx_optGasPrice (st : LedgerState) (m : TxMeta) (now : Nat) :
    (addTx st m now).2.optGasPrice = m.optGasPrice := rfl

/-- `addTx` leaves the method name untouched. -/
theorem addTx_method (st : LedgerState) (m : TxMeta) (now : Nat) :
    (addTx st m now).2.method = m.method := rfl

/-- The id `addTx` stores on the entry. -/
theorem addTx_id (st : LedgerState) (m : TxMeta) (now : Nat) :
    (addTx st m now).2.id = some (addTxId m.id st.idCounter).1 := rfl

/-- `addTx` appends the entry at the back. -/
theorem addTx_tx (st : LedgerState) (m : TxMeta) (now : Nat) :
    (addTx st m now).1.tx = st.tx ++ [(addTx st m now).2] := rfl

/-- The backpressure check is skipped entirely for non-`send` intents. -/
theorem backpressure_false (a : Nat) (obs : List Nat) :
    backpressure false a obs = some (0, a) := rfl

/-- The entry `addTx` stores, in closed form. -/
theorem addTx_snd (st : LedgerState) (m : TxMeta) (now : Nat) :
    (addTx st m now).2 =
      { m with
        id := some (addTxId m.id st.idCounter).1
        time := now
        status := some (m.status.getD Status.pending) } := rfl

/-- `updateStat` touches only the accumulators, never the entry list. -/
theorem updateStat_tx (st : LedgerState) (g p : Nat) :
    (updateStat st g p).tx = st.tx := rfl

/-- Claim C5: a `send` intent whose method is supported neither as `send`
nor as `call` (so `txType` stays undefined after classification) makes
`submitTx` return an internal error instead of throwing past the
bookkeeping: nothing is thrown, `(error, undefined result)` is returned,
and the intent's ledger entry is appended and then finalized with status
`failed`. -/
theorem c5_unsupported (st : LedgerState) (w : String) (m : TxMeta)
    (node : NodeOracle) (obs : List Nat) (now g0 : Nat)
    (sent calls : List String) (nn : Nat)
    (hs : m.method ∉ sent) (hcl : m.method ∉ calls)
    (ht : m.txType = classifyTxType sent calls m.method)
    (hq : node.blockAndCount = Except.ok nn)
    (hid : ∀ t ∈ st.tx, t.id ≠ some (addTxId m.id st.idCounter).1) :
    (submitTx st w m node false obs now g0).map
      (fun r => (r.thrown, r.ret, r.state.tx)) =
    some (none,
      some (some ("proxyHandler: Unsupported method " ++ m.method), none),
      st.tx ++ [c5finalEntry st m now g0]) := by
  have ht0 : m.txType = none := by
    rw [ht]
    simp [classifyTxType, hs, hcl]
  have hupd : ∀ m2 : TxMeta, m2.id = some (addTxId m.id st.idCounter).1 →
      updateTx ((addTx st m now).1.tx) m2 = st.tx ++ [m2] := by
    intro m2 hm2
    rw [addTx_tx]
    apply updateTx_append_last
    · intro t htm
      rw [hm2]
      exact hid t htm
    · rw [addTx_id, hm2]
  unfold submitTx
  rw [if_neg (by simp [ht0]), hq]
  simp [getNonce, addTx_txType, addTx_optGasPrice, addTx_id, addTx_snd,
    updateStat_tx, updateStatOpt, ht0, backpressure_false, finalizeTx,
    c5finalEntry, hupd]

/-- Helper: the classification test of the `send` branch evaluates true. -/
theorem decide_send_eq :
    decide ((some TxType.send : Option TxType) = some TxType.send) = true := rfl

/-- Counterexample for C3: for an intent whose method is unsupported
(undefined `txType`), `submitTx` acquires the per-address nonce lock
inside `getNonce` and never invokes its release capability — the lock
leaks (the line-249 release is only on the `send` branch, and the outer
`catch` at line 275 — the only other release site — is unreachable
because `updateStat` never throws). -/
theorem c3_counterexample :
    (submitTx ledger0 "A" c3meta nodeOk false [] 0 0).map
      (fun r => (r.nonceLockAcquired, r.nonceLockReleases)) = some (true, 0) := by
  decide

/-- Claim C3 (amended): the nonce lock acquired in `resolve` is released
exactly once on the paths the claim lists — node-query failure inside
`resolve` (released before the error propagates), and the `send` path
whether the dispatch succeeds or throws — but on the unsupported-method
path it is never released: the lock leaks unconditionally there, because
the line-249 release is `send`-branch-only and the outer `catch` at line
275 (the only other release site) is unreachable — `updateStat` cannot
throw, since `bigInt(undefined)` is zero. -/
theorem c3_amended (st : LedgerState) (w : String) (m : TxMeta)
    (node : NodeOracle) (obs : List Nat) (now g0 : Nat) :
    (∀ e, m.txType ≠ some TxType.call → node.blockAndCount = Except.error e →
      (submitTx st w m node false obs now g0).map
        (fun r => (r.thrown, r.nonceLockAcquired, r.nonceLockReleases)) =
      some (some e, true, 1)) ∧
    (m.txType = some TxType.send →
      (submitTx st w m node false obs now g0).map
        (fun r => (r.nonceLockAcquired, r.nonceLockReleases)) = some (true, 1) ∨
      submitTx st w m node false obs now g0 = none) ∧
    (∀ nn, m.txType = none → node.blockAndCount = Except.ok nn →
      (submitTx st w m node false obs now g0).map
        (fun r => (r.nonceLockAcquired, r.nonceLockReleases)) = some (true, 0)) := by
  refine ⟨?_, ?_, ?_⟩
  · intro e hc hq
    unfold submitTx
    rw [if_neg hc, hq]
    rfl
  · intro hsend
    unfold submitTx
    rw [if_neg (by simp [hsend])]
    cases hnq : node.blockAndCount with
    | error e =>
      left
      rfl
    | ok nn =>
      simp only [getNonce, addTx_txType, hsend, decide_send_eq]
      cases hbp : backpressure true
          ((getSubmittedTransactions (addTx st m now).1.tx none).length) obs with
      | none =>
        right
        simp [hbp]
      | some bp =>
        left
        cases hsr : node.sendResult with
        | ok receipt => simp [hbp, hsr]
        | error e => simp [hbp, hsr]
  · intro nn ht0 hq
    unfold submitTx
    rw [if_neg (by simp [ht0]), hq]
    simp [getNonce, addTx_txType, ht0, backpressure_false]

/-- Witness for C3 (amended): the leaking path at concrete inputs — an
unsupported method acquires the lock and never releases it. -/
theorem c3_amended_witness :
    (submitTx ledger0 "A" c3meta nodeOk false [] 0 0).map
      (fun r => (r.nonceLockAcquired, r.nonceLockReleases)) = some (true, 0) :=
  (c3_amended ledger0 "A" c3meta nodeOk [] 0 0).2.2 0 rfl rfl

/-- Witness for C5: the concrete unsupported-method intent against the
empty ledger is finalized as `failed` and `(error, undefined)` is
returned without a throw. -/
theorem c5_unsupported_witness :
    ("zz" ∉ ([] : List String)) ∧
    (submitTx ledger0 "A" c3meta nodeOk false [] 0 0).map
      (fun r => (r.thrown, r.ret, r.state.tx)) =
    some (none,
      some (some ("proxyHandler: Unsupported method " ++ c3meta.method), none),
      ledger0.tx ++ [c5finalEntry ledger0 c3meta 0 0]) :=
  ⟨by decide, c5_unsupported ledger0 "A" c3meta nodeOk [] 0 0 [] [] 0
    (by decide) (by decide) rfl rfl (by decide)⟩

/-- Reading back the thread just set. -/
theorem setTh_same (s : SysSt) (t : Bool) (ts : ThreadSt) :
    (setTh s t ts).th t = ts := by
  simp [setTh]

/-- Reading the other thread after a set. -/
theorem setTh_other (s : SysSt) (t b : Bool) (ts : ThreadSt) (h : b ≠ t) :
    (setTh s t ts).th b = s.th b := by
  simp [setTh, h]

/-- `setTh` leaves the ledger alone. -/
theorem setTh_ledger (s : SysSt) (t : Bool) (ts : ThreadSt) :
    (setTh s t ts).ledger = s.ledger := rfl

/-- `setTh` leaves the lock alone. -/
theorem setTh_lock (s : SysSt) (t : Bool) (ts : ThreadSt) :
    (setTh s t ts).lockHeld = s.lockHeld := rfl

/-- A boolean differing from `t` is `!t`. -/
theorem bool_other {b t : Bool} (h : ¬ b = t) : b = !t := by
  cases b <;> cases t <;> simp_all

/-- Two consecutive generated ids differ. -/
theorem mod_succ_ne {i : Nat} (h : i < MSI) : (i + 1) % MSI ≠ i := by
  intro heq
  rcases Nat.lt_or_ge (i + 1) MSI with h1 | h1
  · rw [Nat.mod_eq_of_lt h1] at heq
    omega
  · have h2 : i + 1 = MSI := by omega
    rw [h2, Nat.mod_self] at heq
    have h3 : (2 : Nat) ≤ MSI := by decide
    omega

/-- `addTx` of the interleaved intent: the stored entry list. -/
theorem addTx_c2_tx (l : LedgerState) :
    (addTx l c2meta0 0).1.tx = l.tx ++ [c2pending (l.idCounter % MSI)] := rfl

/-- `addTx` of the interleaved intent: the advanced counter. -/
theorem addTx_c2_counter (l : LedgerState) :
    (addTx l c2meta0 0).1.idCounter = l.idCounter % MSI + 1 := rfl

/-- `addTx` of the interleaved intent: the generated id. -/
theorem addTx_c2_id (l : LedgerState) :
    (addTx l c2meta0 0).2.id = some (l.idCounter % MSI) := rfl

/-- `updateStat` leaves the id counter alone. -/
theorem updateStat_idCounter (st : LedgerState) (g p : Nat) :
    (updateStat st g p).idCounter = st.idCounter := rfl

/-- Step equation: pc 0 (`addTx`). -/
theorem c2step_pc0 (orc : Bool → ThOracle) (s : SysSt) (t : Bool)
    (h : (s.th t).pc = 0) :
    c2step orc s t = setTh { s with ledger := (addTx s.ledger c2meta0 0).1 } t
      { s.th t with pc := 1, myId := (addTx s.ledger c2meta0 0).2.id } := by
  simp [c2step, h]

/-- Step equation: pc 1 with the lock free (acquire). -/
theorem c2step_pc1_free (orc : Bool → ThOracle) (s : SysSt) (t : Bool)
    (h : (s.th t).pc = 1) (hl : s.lockHeld = false) :
    c2step orc s t = setTh { s with lockHeld := true } t
      { s.th t with pc := 2 } := by
  simp [c2step, h, hl]

/-- Step equation: pc 1 with the lock held (still blocked). -/
theorem c2step_pc1_held (orc : Bool → ThOracle) (s : SysSt) (t : Bool)
    (h : (s.th t).pc = 1) (hl : s.lockHeld = true) :
    c2step orc s t = s := by
  simp [c2step, h, hl]

/-- Step equation: pc 2 (resolve). -/
theorem c2step_pc2 (orc : Bool → ThOracle) (s : SysSt) (t : Bool)
    (h : (s.th t).pc = 2) :
    c2step orc s t = setTh s t { s.th t with
      pc := 3
      myNonce := some ((getNonceCalc s.ledger.tx c2addr ((orc t).netNonce)).1)
      ghostOtherFailed := ghostCheck s.ledger.tx ((s.th (!t)).myId) } := by
  simp [c2step, h]

/-- Step equation: pc 3 (record as submitted, release the lock). -/
theorem c2step_pc3 (orc : Bool → ThOracle) (s : SysSt) (t : Bool)
    (h : (s.th t).pc = 3) :
    c2step orc s t = setTh { s with
      ledger := { s.ledger with tx := (updateTx s.ledger.tx
        (c2submitted (((s.th t).myId).getD 0) (((s.th t).myNonce).getD 0))) }
      lockHeld := false } t { s.th t with pc := 4 } := by
  simp [c2step, h]

/-- Step equation: pc 4 (dispatch returns, finalize). -/
theorem c2step_pc4 (orc : Bool → ThOracle) (s : SysSt) (t : Bool)
    (h : (s.th t).pc = 4) :
    c2step orc s t = setTh { s with
      ledger := { updateStat s.ledger 0 1 with tx := (updateTx s.ledger.tx
        (c2final (((s.th t).myId).getD 0) (((s.th t).myNonce).getD 0)
          ((orc t).dispatchOk))) } } t { s.th t with pc := 5 } := by
  simp [c2step, h]

/-- Step equation: pc 5 and beyond (done). -/
theorem c2step_done (orc : Bool → ThOracle) (s : SysSt) (t : Bool)
    (h0 : ¬ (s.th t).pc = 0) (h1 : ¬ (s.th t).pc = 1) (h2 : ¬ (s.th t).pc = 2)
    (h3 : ¬ (s.th t).pc = 3) (h4 : ¬ (s.th t).pc = 4) :
    c2step orc s t = s := by
  simp [c2step, h0, h1, h2, h3, h4]

/-- Counterexample for C2: the claim as stated is false — there is an
interleaving (one submission's dispatch fails before the other resolves)
in which two concurrent `send` submissions for the same account both
complete having received the same resolved nonce. -/
theorem c2_counterexample :
    ¬ (∀ (orc : Bool → ThOracle) (sched : List Bool),
      c2BothDone (c2run orc c2init sched) →
      c2DistinctNonces (c2run orc c2init sched)) := by
  intro h
  have h2 := h cexOrc cexSched (by unfold c2BothDone; decide)
  unfold c2DistinctNonces at h2
  exact h2 (by decide)

/-- The entry a thread accounts for while its pc is at most 3. -/
theorem entryOf_pending (orc : Bool → ThOracle) (t : Bool) (ts : ThreadSt)
    (h : ts.pc ≤ 3) : entryOf orc t ts = c2pending (ts.myId.getD 0) := by
  simp [entryOf, h]

/-- The entry a thread accounts for at pc 4. -/
theorem entryOf_submitted (orc : Bool → ThOracle) (t : Bool) (ts : ThreadSt)
    (h : ts.pc = 4) :
    entryOf orc t ts = c2submitted (ts.myId.getD 0) (ts.myNonce.getD 0) := by
  simp [entryOf, h]

/-- The entry a thread accounts for at pc 5. -/
theorem entryOf_final (orc : Bool → ThOracle) (t : Bool) (ts : ThreadSt)
    (h3 : ¬ ts.pc ≤ 3) (h4 : ¬ ts.pc = 4) :
    entryOf orc t ts =
      c2final (ts.myId.getD 0) (ts.myNonce.getD 0) (orc t).dispatchOk := by
  simp [entryOf, h3, h4]

/-- The id carried by a thread's entry. -/
theorem entryOf_id (orc : Bool → ThOracle) (t : Bool) (ts : ThreadSt) {i : Nat}
    (h : ts.myId = some i) : (entryOf orc t ts).id = some i := by
  by_cases h3 : ts.pc ≤ 3
  · simp [entryOf, h3, c2pending, c2meta0, h]
  · by_cases h4 : ts.pc = 4
    · simp [entryOf, h3, h4, c2submitted, c2pending, c2meta0, h]
    · simp [entryOf, h3, h4, c2final, c2submitted, c2pending, c2meta0, h]

/-- The history probe fires on a failed entry with the probed id. -/
theorem ghostCheck_true {l : List TxMeta} {e : TxMeta} {oid : Option Nat}
    (he : e ∈ l) (hi : e.id = oid) (hst : e.status = some Status.failed) :
    ghostCheck l oid = true := by
  unfold ghostCheck
  rw [List.any_eq_true]
  exact ⟨e, he, by simp [hi, hst]⟩

/-- Freshness of a resolution performed while the other submission's
entry is recorded (pc at least 4) and not observed as failed: the nonce
computed by `getNonceCalc` differs from the other thread's resolved
nonce.  This is the heart of the amended uniqueness claim: the resolver
skips submitted nonces and starts above confirmed ones, and the ghost
hypothesis rules out the failed-entry case. -/
theorem c2resolve_fresh (orc : Bool → ThOracle) (s : SysSt) (t : Bool)
    (hpcb : ∀ b, (s.th b).pc ≤ 5)
    (hid : ∀ b, 1 ≤ (s.th b).pc → ∃ i, (s.th b).myId = some i ∧ i < MSI)
    (hnonce : ∀ b, 3 ≤ (s.th b).pc → ((s.th b).myNonce).isSome)
    (hshape : ledgerShape orc s)
    (hpc_t : (s.th t).pc = 2)
    (hu4 : 4 ≤ (s.th (!t)).pc)
    (hg : ghostCheck s.ledger.tx ((s.th (!t)).myId) = false) :
    some ((getNonceCalc s.ledger.tx c2addr ((orc t).netNonce)).1) ≠
      (s.th (!t)).myNonce := by
  obtain ⟨iu, hiu, _⟩ := hid (!t) (by omega)
  have hnu := hnonce (!t) (by omega)
  rcases Option.isSome_iff_exists.mp hnu with ⟨nu, hnuv⟩
  obtain ⟨it, hit, _⟩ := hid t (by omega)
  -- the ledger holds exactly the two entries
  rcases hshape with ⟨hA, hB, _⟩ | ⟨b, hb1, hb2, _, _⟩ | ⟨h1, h2, hne, hor⟩
  · cases t <;> simp_all
  · by_cases hbt : b = t
    · subst hbt
      omega
    · rw [bool_other hbt, Bool.not_not] at hb2
      omega
  · -- the other thread's entry
    have hmemu : entryOf orc (!t) (s.th (!t)) ∈ s.ledger.tx := by
      rcases hor with h | h <;> rw [h] <;> cases t <;> simp
    have hpcu5 := hpcb (!t)
    intro heq
    rw [hnuv] at heq
    injection heq with heq
    by_cases hu : (s.th (!t)).pc = 4
    · -- submitted entry with nonce nu
      have he : entryOf orc (!t) (s.th (!t)) = c2submitted iu nu := by
        rw [entryOf_submitted orc (!t) _ hu, hiu, hnuv]
        rfl
      rw [he] at hmemu
      exact getNonceCalc_not_submitted ((orc t).netNonce) hmemu rfl rfl rfl heq
    · have hu5 : (s.th (!t)).pc = 5 := by omega
      have he : entryOf orc (!t) (s.th (!t)) =
          c2final iu nu (orc (!t)).dispatchOk := by
        rw [entryOf_final orc (!t) _ (by omega) hu, hiu, hnuv]
        rfl
      cases hok : (orc (!t)).dispatchOk with
      | true =>
        -- confirmed entry with nonce nu: the resolver exceeds it
        rw [hok] at he
        rw [he] at hmemu
        have hall : ∀ e2 ∈ getConfirmedTransactions s.ledger.tx (some c2addr),
            (e2.nonce).isSome := by
          intro e2 he2
          rcases mem_getConfirmedTransactions.mp he2 with ⟨hm2, hst2, _⟩
          have hm2o : e2 = entryOf orc true (s.th true) ∨
              e2 = entryOf orc false (s.th false) := by
            rcases hor with h | h <;> rw [h] at hm2 <;> simp at hm2 <;> tauto
          have hto : entryOf orc t (s.th t) = c2pending it := by
            rw [entryOf_pending orc t _ (by omega), hit]
            rfl
          rcases hm2o with h | h
          · cases t
            · rw [show (!false) = true from rfl] at he
              rw [h, he]
              rfl
            · rw [h, hto] at hst2 ⊢
              simp [c2pending, c2meta0] at hst2
          · cases t
            · rw [h, hto] at hst2 ⊢
              simp [c2pending, c2meta0] at hst2
            · rw [show (!true) = false from rfl] at he
              rw [h, he]
              rfl
        have hlt : nu < (getNonceCalc s.ledger.tx c2addr ((orc t).netNonce)).1 :=
          getNonceCalc_gt_confirmed ((orc t).netNonce) hmemu rfl rfl rfl hall
        omega
      | false =>
        -- failed entry: the ghost probe would have fired
        rw [hok] at he
        have : ghostCheck s.ledger.tx ((s.th (!t)).myId) = true := by
          apply ghostCheck_true hmemu
          · rw [entryOf_id orc (!t) _ hiu, hiu]
          · rw [he]
            rfl
        rw [this] at hg
        cases hg

/-- Invariant preservation: the `addTx` step. -/
theorem c2Inv_step0 (orc : Bool → ThOracle) (s : SysSt) (t : Bool)
    (hinv : c2Inv orc s) (h0 : (s.th t).pc = 0) : c2Inv orc (c2step orc s t) := by
  obtain ⟨hpc, hlock, hexcl, hid, hnonce, hshape, hgoal⟩ := hinv
  rw [c2step_pc0 orc s t h0]
  have hmsi : 0 < MSI := by decide
  set n := setTh { s with ledger := (addTx s.ledger c2meta0 0).1 } t
      { s.th t with pc := 1, myId := (addTx s.ledger c2meta0 0).2.id } with hn
  have hth_t : n.th t =
      { s.th t with pc := 1, myId := (addTx s.ledger c2meta0 0).2.id } := by
    rw [hn]
    exact setTh_same _ _ _
  have hth_o : ∀ b, ¬ b = t → n.th b = s.th b := by
    intro b hb
    rw [hn]
    exact setTh_other _ _ _ _ hb
  have hpct : (n.th t).pc = 1 := by rw [hth_t]
  have hidt : (n.th t).myId = some (s.ledger.idCounter % MSI) := by
    rw [hth_t]
    exact addTx_c2_id s.ledger
  have hled_tx : n.ledger.tx =
      s.ledger.tx ++ [c2pending (s.ledger.idCounter % MSI)] := by
    rw [hn]
    exact addTx_c2_tx s.ledger
  have hled_ctr : n.ledger.idCounter = s.ledger.idCounter % MSI + 1 := by
    rw [hn]
    exact addTx_c2_counter s.ledger
  have hlk : n.lockHeld = s.lockHeld := by rw [hn]; rfl
  have hcrit : ∀ b, inCrit (n.th b) ↔ inCrit (s.th b) := by
    intro b
    by_cases hb : b = t
    · subst hb
      simp [inCrit, hpct, h0]
    · rw [hth_o b hb]
  refine ⟨?_, ?_, ?_, ?_, ?_, ?_, ?_⟩
  · intro b
    by_cases hb : b = t
    · subst hb
      omega
    · rw [hth_o b hb]
      exact hpc b
  · rw [hlk, hcrit true, hcrit false]
    exact hlock
  · rw [hcrit true, hcrit false]
    exact hexcl
  · intro b hb1
    by_cases hb : b = t
    · subst hb
      exact ⟨_, hidt, Nat.mod_lt _ hmsi⟩
    · rw [hth_o b hb]
      rw [hth_o b hb] at hb1
      exact hid b hb1
  · intro b hb3
    by_cases hb : b = t
    · subst hb
      exact absurd hb3 (by omega)
    · rw [hth_o b hb]
      rw [hth_o b hb] at hb3
      exact hnonce b hb3
  · rcases hshape with ⟨hA, hB, hC⟩ | ⟨b, hb1, hb2, hbtx, hbc⟩ | ⟨h1, h2, hne, hor⟩
    · refine Or.inr (Or.inl ⟨t, by omega, ?_, ?_, ?_⟩)
      · rw [hth_o (!t) (by cases t <;> simp)]
        cases t
        · exact hA
        · exact hB
      · rw [hled_tx, hC, entryOf_pending orc t _ (by omega), hidt]
        rfl
      · rw [hled_ctr, hidt]
        rfl
    · by_cases hbt : b = t
      · subst hbt
        omega
      · rw [bool_other hbt] at hb1 hb2 hbtx hbc
        rw [Bool.not_not] at hb2
        obtain ⟨iu, hiu, hiuM⟩ := hid (!t) hb1
        rw [hiu] at hbc
        have hneid : s.ledger.idCounter % MSI ≠ iu := by
          rw [hbc]
          exact mod_succ_ne hiuM
        have hut : n.th (!t) = s.th (!t) := hth_o (!t) (by cases t <;> simp)
        have hEt : entryOf orc t (n.th t) = c2pending (s.ledger.idCounter % MSI) := by
          rw [entryOf_pending orc t _ (by omega), hidt]
          rfl
        have hEu : entryOf orc (!t) (n.th (!t)) = entryOf orc (!t) (s.th (!t)) := by
          rw [hut]
        have htx2 : n.ledger.tx =
            [entryOf orc (!t) (n.th (!t)), entryOf orc t (n.th t)] := by
          rw [hled_tx, hbtx, hEt, hEu]
          rfl
        refine Or.inr (Or.inr ⟨?_, ?_, ?_, ?_⟩)
        · cases t
          · exact hb1
          · omega
        · cases t
          · omega
          · exact hb1
        · cases t
          · intro hx
            have hidu : (n.th true).myId = some iu := hiu
            rw [hidu, hidt] at hx
            injection hx with hx
            exact hneid hx.symm
          · intro hx
            have hidu : (n.th false).myId = some iu := hiu
            rw [hidu, hidt] at hx
            injection hx with hx
            exact hneid hx
        · cases t
          · exact Or.inl htx2
          · exact Or.inr htx2
    · cases t
      · omega
      · omega
  · intro h3t h3f _ _
    cases t
    · exact absurd h3f (by omega)
    · exact absurd h3t (by omega)

/-- Invariant preservation: blocked acquisition is a no-op. -/
theorem c2Inv_step1_held (orc : Bool → ThOracle) (s : SysSt) (t : Bool)
    (hinv : c2Inv orc s) (h1 : (s.th t).pc = 1) (hl : s.lockHeld = true) :
    c2Inv orc (c2step orc s t) := by
  rw [c2step_pc1_held orc s t h1 hl]
  exact hinv

/-- Invariant preservation: acquiring the free nonce mutex. -/
theorem c2Inv_step1_free (orc : Bool → ThOracle) (s : SysSt) (t : Bool)
    (hinv : c2Inv orc s) (h1 : (s.th t).pc = 1) (hl : s.lockHeld = false) :
    c2Inv orc (c2step orc s t) := by
  obtain ⟨hpc, hlock, hexcl, hid, hnonce, hshape, hgoal⟩ := hinv
  rw [c2step_pc1_free orc s t h1 hl]
  set n := setTh { s with lockHeld := true } t { s.th t with pc := 2 } with hn
  have hth_t : n.th t = { s.th t with pc := 2 } := by
    rw [hn]
    exact setTh_same _ _ _
  have hth_o : ∀ b, ¬ b = t → n.th b = s.th b := by
    intro b hb
    rw [hn]
    exact setTh_other _ _ _ _ hb
  have hpct : (n.th t).pc = 2 := by rw [hth_t]
  have hmy : (n.th t).myId = (s.th t).myId := by rw [hth_t]
  have hltx : n.ledger.tx = s.ledger.tx := by rw [hn]; rfl
  have hlctr : n.ledger.idCounter = s.ledger.idCounter := by rw [hn]; rfl
  have hlkn : n.lockHeld = true := by rw [hn]; rfl
  have hno : ¬ (inCrit (s.th true) ∨ inCrit (s.th false)) := by
    intro hcr
    have h2 := hlock.mpr hcr
    rw [hl] at h2
    cases h2
  have hE : entryOf orc t (n.th t) = entryOf orc t (s.th t) := by
    rw [entryOf_pending orc t _ (by omega), entryOf_pending orc t _ (by omega), hmy]
  have hmyAll : ∀ b, (n.th b).myId = (s.th b).myId := by
    intro b
    by_cases hb : b = t
    · subst hb
      exact hmy
    · rw [hth_o b hb]
  have hEAll : ∀ b, entryOf orc b (n.th b) = entryOf orc b (s.th b) := by
    intro b
    by_cases hb : b = t
    · subst hb
      exact hE
    · rw [hth_o b hb]
  refine ⟨?_, ?_, ?_, ?_, ?_, ?_, ?_⟩
  · intro b
    by_cases hb : b = t
    · subst hb
      omega
    · rw [hth_o b hb]
      exact hpc b
  · have hct : inCrit (n.th t) := Or.inl hpct
    rw [hlkn]
    constructor
    · intro _
      cases t
      · exact Or.inr hct
      · exact Or.inl hct
    · intro _
      rfl
  · intro hcc
    cases t
    · exact hno (Or.inl hcc.1)
    · exact hno (Or.inr hcc.2)
  · intro b hb1
    by_cases hb : b = t
    · subst hb
      obtain ⟨i, hi, hM⟩ := hid b (by omega)
      refine ⟨i, ?_, hM⟩
      rw [hmy]
      exact hi
    · rw [hth_o b hb]
      rw [hth_o b hb] at hb1
      exact hid b hb1
  · intro b hb3
    by_cases hb : b = t
    · subst hb
      exact absurd hb3 (by omega)
    · rw [hth_o b hb]
      rw [hth_o b hb] at hb3
      exact hnonce b hb3
  · rcases hshape with ⟨hA, hB, _⟩ | ⟨b, hb1, hb2, hbtx, hbc⟩ | ⟨hs1, hs2, hne, hor⟩
    · cases t
      · omega
      · omega
    · by_cases hbt : b = t
      · subst hbt
        refine Or.inr (Or.inl ⟨b, by omega, ?_, ?_, ?_⟩)
        · rw [hth_o (!b) (by cases b <;> simp)]
          exact hb2
        · rw [hltx, hbtx, hE]
        · rw [hlctr, hbc, hmy]
      · rw [bool_other hbt, Bool.not_not] at hb2
        omega
    · refine Or.inr (Or.inr ⟨?_, ?_, ?_, ?_⟩)
      · by_cases hb : true = t
        · rw [← hb] at hpct
          omega
        · rw [hth_o true hb]
          exact hs1
      · by_cases hb : false = t
        · rw [← hb] at hpct
          omega
        · rw [hth_o false hb]
          exact hs2
      · rw [hmyAll true, hmyAll false]
        exact hne
      · rw [hltx, hEAll true, hEAll false]
        exact hor
  · intro h3t h3f _ _
    cases t
    · exact absurd h3f (by omega)
    · exact absurd h3t (by omega)

/-- Invariant preservation: the resolve step, where the amended
uniqueness clause is established via `c2resolve_fresh`. -/
theorem c2Inv_step2 (orc : Bool → ThOracle) (s : SysSt) (t : Bool)
    (hinv : c2Inv orc s) (hstep : (s.th t).pc = 2) : c2Inv orc (c2step orc s t) := by
  obtain ⟨hpc, hlock, hexcl, hid, hnonce, hshape, hgoal⟩ := hinv
  rw [c2step_pc2 orc s t hstep]
  set n := setTh s t { s.th t with
      pc := 3
      myNonce := some ((getNonceCalc s.ledger.tx c2addr ((orc t).netNonce)).1)
      ghostOtherFailed := ghostCheck s.ledger.tx ((s.th (!t)).myId) } with hn
  have hth_t : n.th t = { s.th t with
      pc := 3
      myNonce := some ((getNonceCalc s.ledger.tx c2addr ((orc t).netNonce)).1)
      ghostOtherFailed := ghostCheck s.ledger.tx ((s.th (!t)).myId) } := by
    rw [hn]
    exact setTh_same _ _ _
  have hth_o : ∀ b, ¬ b = t → n.th b = s.th b := by
    intro b hb
    rw [hn]
    exact setTh_other _ _ _ _ hb
  have hpct : (n.th t).pc = 3 := by rw [hth_t]
  have hmy : (n.th t).myId = (s.th t).myId := by rw [hth_t]
  have hltx : n.ledger.tx = s.ledger.tx := by rw [hn]; rfl
  have hlctr : n.ledger.idCounter = s.ledger.idCounter := by rw [hn]; rfl
  have hlkn : n.lockHeld = s.lockHeld := by rw [hn]; rfl
  have hE : entryOf orc t (n.th t) = entryOf orc t (s.th t) := by
    rw [entryOf_pending orc t _ (by omega), entryOf_pending orc t _ (by omega), hmy]
  have hmyAll : ∀ b, (n.th b).myId = (s.th b).myId := by
    intro b
    by_cases hb : b = t
    · subst hb
      exact hmy
    · rw [hth_o b hb]
  have hEAll : ∀ b, entryOf orc b (n.th b) = entryOf orc b (s.th b) := by
    intro b
    by_cases hb : b = t
    · subst hb
      exact hE
    · rw [hth_o b hb]
  have hcrit : ∀ b, inCrit (n.th b) ↔ inCrit (s.th b) := by
    intro b
    by_cases hb : b = t
    · subst hb
      constructor
      · intro _
        exact Or.inl hstep
      · intro _
        exact Or.inr hpct
    · rw [hth_o b hb]
  refine ⟨?_, ?_, ?_, ?_, ?_, ?_, ?_⟩
  · intro b
    by_cases hb : b = t
    · subst hb
      omega
    · rw [hth_o b hb]
      exact hpc b
  · rw [hlkn, hcrit true, hcrit false]
    exact hlock
  · rw [hcrit true, hcrit false]
    exact hexcl
  · intro b hb1
    by_cases hb : b = t
    · subst hb
      obtain ⟨i, hi, hM⟩ := hid b (by omega)
      refine ⟨i, ?_, hM⟩
      rw [hmy]
      exact hi
    · rw [hth_o b hb]
      rw [hth_o b hb] at hb1
      exact hid b hb1
  · intro b hb3
    by_cases hb : b = t
    · subst hb
      rw [hth_t]
      rfl
    · rw [hth_o b hb]
      rw [hth_o b hb] at hb3
      exact hnonce b hb3
  · rcases hshape with ⟨hA, hB, _⟩ | ⟨b, hb1, hb2, hbtx, hbc⟩ | ⟨hs1, hs2, hne, hor⟩
    · cases t
      · omega
      · omega
    · by_cases hbt : b = t
      · subst hbt
        refine Or.inr (Or.inl ⟨b, by omega, ?_, ?_, ?_⟩)
        · rw [hth_o (!b) (by cases b <;> simp)]
          exact hb2
        · rw [hltx, hbtx, hE]
        · rw [hlctr, hbc, hmy]
      · rw [bool_other hbt, Bool.not_not] at hb2
        omega
    · refine Or.inr (Or.inr ⟨?_, ?_, ?_, ?_⟩)
      · by_cases hb : true = t
        · rw [← hb] at hpct
          omega
        · rw [hth_o true hb]
          exact hs1
      · by_cases hb : false = t
        · rw [← hb] at hpct
          omega
        · rw [hth_o false hb]
          exact hs2
      · rw [hmyAll true, hmyAll false]
        exact hne
      · rw [hltx, hEAll true, hEAll false]
        exact hor
  · intro h3t h3f hg1 hg2
    cases t with
    | true =>
      have hg : ghostCheck s.ledger.tx ((s.th (!true)).myId) = false := hg1
      rcases Nat.lt_or_ge ((s.th false).pc) 4 with hu | hu
      · by_cases hcu : inCrit (s.th false)
        · exact absurd ⟨Or.inl hstep, hcu⟩ hexcl
        · simp [inCrit] at hcu
          have h3f2 : 3 ≤ (s.th false).pc := h3f
          omega
      · have hu4 : 4 ≤ (s.th (!true)).pc := hu
        exact c2resolve_fresh orc s true hpc hid hnonce hshape hstep hu4 hg
    | false =>
      have hg : ghostCheck s.ledger.tx ((s.th (!false)).myId) = false := hg2
      rcases Nat.lt_or_ge ((s.th true).pc) 4 with hu | hu
      · by_cases hcu : inCrit (s.th true)
        · exact absurd ⟨hcu, Or.inl hstep⟩ hexcl
        · simp [inCrit] at hcu
          have h3t2 : 3 ≤ (s.th true).pc := h3t
          omega
      · have hu4 : 4 ≤ (s.th (!false)).pc := hu
        exact (c2resolve_fresh orc s false hpc hid hnonce hshape hstep hu4 hg).symm

/-- The id of a recorded-as-submitted entry. -/
theorem c2submitted_id (i n : Nat) : (c2submitted i n).id = some i := rfl

/-- The id of a finalized entry. -/
theorem c2final_id (i n : Nat) (ok : Bool) : (c2final i n ok).id = some i := rfl

/-- Invariant preservation: recording the entry as submitted and
releasing the nonce lock. -/
theorem c2Inv_step3 (orc : Bool → ThOracle) (s : SysSt) (t : Bool)
    (hinv : c2Inv orc s) (hstep : (s.th t).pc = 3) : c2Inv orc (c2step orc s t) := by
  obtain ⟨hpc, hlock, hexcl, hid, hnonce, hshape, hgoal⟩ := hinv
  rw [c2step_pc3 orc s t hstep]
  set n := setTh { s with
      ledger := { s.ledger with tx := (updateTx s.ledger.tx
        (c2submitted (((s.th t).myId).getD 0) (((s.th t).myNonce).getD 0))) }
      lockHeld := false } t { s.th t with pc := 4 } with hn
  have hth_t : n.th t = { s.th t with pc := 4 } := by
    rw [hn]
    exact setTh_same _ _ _
  have hth_o : ∀ b, ¬ b = t → n.th b = s.th b := by
    intro b hb
    rw [hn]
    exact setTh_other _ _ _ _ hb
  have hpct : (n.th t).pc = 4 := by rw [hth_t]
  have hmy : (n.th t).myId = (s.th t).myId := by rw [hth_t]
  have hnn : (n.th t).myNonce = (s.th t).myNonce := by rw [hth_t]
  have hltx : n.ledger.tx = updateTx s.ledger.tx
      (c2submitted (((s.th t).myId).getD 0) (((s.th t).myNonce).getD 0)) := by
    rw [hn]
    rfl
  have hlctr : n.ledger.idCounter = s.ledger.idCounter := by rw [hn]; rfl
  have hlkn : n.lockHeld = false := by rw [hn]; rfl
  have hctold : inCrit (s.th t) := Or.inr hstep
  have hnou : ¬ inCrit (s.th (!t)) := by
    intro hcu
    cases t
    · exact hexcl ⟨hcu, hctold⟩
    · exact hexcl ⟨hctold, hcu⟩
  have hrhs : ¬ (inCrit (n.th true) ∨ inCrit (n.th false)) := by
    have hnct : ¬ inCrit (n.th t) := by simp [inCrit, hpct]
    intro hcr
    rcases hcr with hc | hc
    · by_cases hb : true = t
      · rw [← hb] at hnct
        exact hnct hc
      · rw [hth_o true hb] at hc
        rw [bool_other hb] at hc
        exact hnou hc
    · by_cases hb : false = t
      · rw [← hb] at hnct
        exact hnct hc
      · rw [hth_o false hb] at hc
        rw [bool_other hb] at hc
        exact hnou hc
  have hEt : entryOf orc t (n.th t) =
      c2submitted (((s.th t).myId).getD 0) (((s.th t).myNonce).getD 0) := by
    rw [entryOf_submitted orc t _ hpct, hmy, hnn]
  have hmyAll : ∀ b, (n.th b).myId = (s.th b).myId := by
    intro b
    by_cases hb : b = t
    · subst hb
      exact hmy
    · rw [hth_o b hb]
  refine ⟨?_, ?_, ?_, ?_, ?_, ?_, ?_⟩
  · intro b
    by_cases hb : b = t
    · subst hb
      omega
    · rw [hth_o b hb]
      exact hpc b
  · rw [hlkn]
    exact iff_of_false (by simp) hrhs
  · intro hcc
    exact hrhs (Or.inl hcc.1)
  · intro b hb1
    by_cases hb : b = t
    · subst hb
      obtain ⟨i, hi, hM⟩ := hid b (by omega)
      refine ⟨i, ?_, hM⟩
      rw [hmy]
      exact hi
    · rw [hth_o b hb]
      rw [hth_o b hb] at hb1
      exact hid b hb1
  · intro b hb3
    by_cases hb : b = t
    · subst hb
      rw [hnn]
      exact hnonce b (by omega)
    · rw [hth_o b hb]
      rw [hth_o b hb] at hb3
      exact hnonce b hb3
  · rcases hshape with ⟨hA, hB, _⟩ | ⟨b, hb1, hb2, hbtx, hbc⟩ | ⟨hs1, hs2, hne, hor⟩
    · cases t
      · omega
      · omega
    · by_cases hbt : b = t
      · subst hbt
        refine Or.inr (Or.inl ⟨b, by omega, ?_, ?_, ?_⟩)
        · rw [hth_o (!b) (by cases b <;> simp)]
          exact hb2
        · rw [hltx, hbtx, entryOf_pending orc b _ (by omega),
            updateTx_cons_eq (by rw [c2submitted_id]; rfl), hEt]
        · rw [hlctr, hbc, hmy]
      · rw [bool_other hbt, Bool.not_not] at hb2
        omega
    · obtain ⟨it, hit, _⟩ := hid t (by omega)
      have hsubid : (c2submitted (((s.th t).myId).getD 0)
          (((s.th t).myNonce).getD 0)).id = some it := by
        rw [c2submitted_id, hit]
        rfl
      refine Or.inr (Or.inr ⟨?_, ?_, ?_, ?_⟩)
      · by_cases hb : true = t
        · rw [← hb] at hpct
          omega
        · rw [hth_o true hb]
          exact hs1
      · by_cases hb : false = t
        · rw [← hb] at hpct
          omega
        · rw [hth_o false hb]
          exact hs2
      · rw [hmyAll true, hmyAll false]
        exact hne
      · cases t with
        | true =>
          have hiu2 : 1 ≤ (s.th false).pc := hs2
          obtain ⟨iu, hiu, _⟩ := hid false hiu2
          have hneid : (entryOf orc false (s.th false)).id ≠ some it := by
            rw [entryOf_id orc false _ hiu]
            intro hx
            injection hx with hx
            rw [hiu, hit] at hne
            apply hne
            rw [hx]
          rcases hor with hcase | hcase
          · refine Or.inl ?_
            rw [hltx, hcase,
              updateTx_cons_eq (by rw [entryOf_id orc true _ hit, hsubid]), hEt,
              hth_o false (by simp)]
          · refine Or.inr ?_
            rw [hltx, hcase,
              updateTx_cons_ne (by rw [hsubid]; exact hneid),
              updateTx_cons_eq (by rw [entryOf_id orc true _ hit, hsubid]), hEt,
              hth_o false (by simp)]
        | false =>
          have hiu2 : 1 ≤ (s.th true).pc := hs1
          obtain ⟨iu, hiu, _⟩ := hid true hiu2
          have hneid : (entryOf orc true (s.th true)).id ≠ some it := by
            rw [entryOf_id orc true _ hiu]
            intro hx
            injection hx with hx
            rw [hiu, hit] at hne
            apply hne
            rw [hx]
          rcases hor with hcase | hcase
          · refine Or.inl ?_
            rw [hltx, hcase,
              updateTx_cons_ne (by rw [hsubid]; exact hneid),
              updateTx_cons_eq (by rw [entryOf_id orc false _ hit, hsubid]), hEt,
              hth_o true (by simp)]
          · refine Or.inr ?_
            rw [hltx, hcase,
              updateTx_cons_eq (by rw [entryOf_id orc false _ hit, hsubid]), hEt,
              hth_o true (by simp)]
  · intro h3t h3f hg1 hg2
    have hcarry : ∀ b, 3 ≤ (n.th b).pc → 3 ≤ (s.th b).pc := by
      intro b hb3
      by_cases hb : b = t
      · subst hb
        omega
      · rw [hth_o b hb] at hb3
        exact hb3
    have hgh : ∀ b, (n.th b).ghostOtherFailed = (s.th b).ghostOtherFailed := by
      intro b
      by_cases hb : b = t
      · subst hb
        rw [hth_t]
      · rw [hth_o b hb]
    have hmn : ∀ b, (n.th b).myNonce = (s.th b).myNonce := by
      intro b
      by_cases hb : b = t
      · subst hb
        exact hnn
      · rw [hth_o b hb]
    rw [hgh true] at hg1
    rw [hgh false] at hg2
    rw [hmn true, hmn false]
    exact hgoal (hcarry true h3t) (hcarry false h3f) hg1 hg2

/-- Invariant preservation: the dispatch completing and the entry being
finalized as confirmed or failed. -/
theorem c2Inv_step4 (orc : Bool → ThOracle) (s : SysSt) (t : Bool)
    (hinv : c2Inv orc s) (hstep : (s.th t).pc = 4) : c2Inv orc (c2step orc s t) := by
  obtain ⟨hpc, hlock, hexcl, hid, hnonce, hshape, hgoal⟩ := hinv
  rw [c2step_pc4 orc s t hstep]
  set n := setTh { s with
      ledger := { updateStat s.ledger 0 1 with tx := (updateTx s.ledger.tx
        (c2final (((s.th t).myId).getD 0) (((s.th t).myNonce).getD 0)
          ((orc t).dispatchOk))) } } t { s.th t with pc := 5 } with hn
  have hth_t : n.th t = { s.th t with pc := 5 } := by
    rw [hn]
    exact setTh_same _ _ _
  have hth_o : ∀ b, ¬ b = t → n.th b = s.th b := by
    intro b hb
    rw [hn]
    exact setTh_other _ _ _ _ hb
  have hpct : (n.th t).pc = 5 := by rw [hth_t]
  have hmy : (n.th t).myId = (s.th t).myId := by rw [hth_t]
  have hnn : (n.th t).myNonce = (s.th t).myNonce := by rw [hth_t]
  have hltx : n.ledger.tx = updateTx s.ledger.tx
      (c2final (((s.th t).myId).getD 0) (((s.th t).myNonce).getD 0)
        ((orc t).dispatchOk)) := by
    rw [hn]
    rfl
  have hlctr : n.ledger.idCounter = s.ledger.idCounter := by rw [hn]; rfl
  have hlkn : n.lockHeld = s.lockHeld := by rw [hn]; rfl
  have hcrit : ∀ b, inCrit (n.th b) ↔ inCrit (s.th b) := by
    intro b
    by_cases hb : b = t
    · subst hb
      constructor
      · intro hc
        rcases hc with hc | hc
        · exact absurd hc (by omega)
        · exact absurd hc (by omega)
      · intro hc
        rcases hc with hc | hc
        · exact absurd hc (by omega)
        · exact absurd hc (by omega)
    · rw [hth_o b hb]
  have hEt : entryOf orc t (n.th t) =
      c2final (((s.th t).myId).getD 0) (((s.th t).myNonce).getD 0)
        ((orc t).dispatchOk) := by
    rw [entryOf_final orc t _ (by omega) (by omega), hmy, hnn]
  have hmyAll : ∀ b, (n.th b).myId = (s.th b).myId := by
    intro b
    by_cases hb : b = t
    · subst hb
      exact hmy
    · rw [hth_o b hb]
  refine ⟨?_, ?_, ?_, ?_, ?_, ?_, ?_⟩
  · intro b
    by_cases hb : b = t
    · subst hb
      omega
    · rw [hth_o b hb]
      exact hpc b
  · rw [hlkn, hcrit true, hcrit false]
    exact hlock
  · rw [hcrit true, hcrit false]
    exact hexcl
  · intro b hb1
    by_cases hb : b = t
    · subst hb
      obtain ⟨i, hi, hM⟩ := hid b (by omega)
      refine ⟨i, ?_, hM⟩
      rw [hmy]
      exact hi
    · rw [hth_o b hb]
      rw [hth_o b hb] at hb1
      exact hid b hb1
  · intro b hb3
    by_cases hb : b = t
    · subst hb
      rw [hnn]
      exact hnonce b (by omega)
    · rw [hth_o b hb]
      rw [hth_o b hb] at hb3
      exact hnonce b hb3
  · rcases hshape with ⟨hA, hB, _⟩ | ⟨b, hb1, hb2, hbtx, hbc⟩ | ⟨hs1, hs2, hne, hor⟩
    · cases t
      · omega
      · omega
    · by_cases hbt : b = t
      · subst hbt
        refine Or.inr (Or.inl ⟨b, by omega, ?_, ?_, ?_⟩)
        · rw [hth_o (!b) (by cases b <;> simp)]
          exact hb2
        · rw [hltx, hbtx, entryOf_submitted orc b _ hstep,
            updateTx_cons_eq (by rw [c2submitted_id, c2final_id]), hEt]
        · rw [hlctr, hbc, hmy]
      · rw [bool_other hbt, Bool.not_not] at hb2
        omega
    · obtain ⟨it, hit, _⟩ := hid t (by omega)
      have hfinid : (c2final (((s.th t).myId).getD 0)
          (((s.th t).myNonce).getD 0) ((orc t).dispatchOk)).id = some it := by
        rw [c2final_id, hit]
        rfl
      refine Or.inr (Or.inr ⟨?_, ?_, ?_, ?_⟩)
      · by_cases hb : true = t
        · rw [← hb] at hpct
          omega
        · rw [hth_o true hb]
          exact hs1
      · by_cases hb : false = t
        · rw [← hb] at hpct
          omega
        · rw [hth_o false hb]
          exact hs2
      · rw [hmyAll true, hmyAll false]
        exact hne
      · cases t with
        | true =>
          have hiu2 : 1 ≤ (s.th false).pc := hs2
          obtain ⟨iu, hiu, _⟩ := hid false hiu2
          have hneid : (entryOf orc false (s.th false)).id ≠ some it := by
            rw [entryOf_id orc false _ hiu]
            intro hx
            injection hx with hx
            rw [hiu, hit] at hne
            apply hne
            rw [hx]
          rcases hor with hcase | hcase
          · refine Or.inl ?_
            rw [hltx, hcase,
              updateTx_cons_eq (by rw [entryOf_id orc true _ hit, hfinid]), hEt,
              hth_o false (by simp)]
          · refine Or.inr ?_
            rw [hltx, hcase,
              updateTx_cons_ne (by rw [hfinid]; exact hneid),
              updateTx_cons_eq (by rw [entryOf_id orc true _ hit, hfinid]), hEt,
              hth_o false (by simp)]
        | false =>
          have hiu2 : 1 ≤ (s.th true).pc := hs1
          obtain ⟨iu, hiu, _⟩ := hid true hiu2
          have hneid : (entryOf orc true (s.th true)).id ≠ some it := by
            rw [entryOf_id orc true _ hiu]
            intro hx
            injection hx with hx
            rw [hiu, hit] at hne
            apply hne
            rw [hx]
          rcases hor with hcase | hcase
          · refine Or.inl ?_
            rw [hltx, hcase,
              updateTx_cons_ne (by rw [hfinid]; exact hneid),
              updateTx_cons_eq (by rw [entryOf_id orc false _ hit, hfinid]), hEt,
              hth_o true (by simp)]
          · refine Or.inr ?_
            rw [hltx, hcase,
              updateTx_cons_eq (by rw [entryOf_id orc false _ hit, hfinid]), hEt,
              hth_o true (by simp)]
  · intro h3t h3f hg1 hg2
    have hcarry : ∀ b, 3 ≤ (n.th b).pc → 3 ≤ (s.th b).pc := by
      intro b hb3
      by_cases hb : b = t
      · subst hb
        omega
      · rw [hth_o b hb] at hb3
        exact hb3
    have hgh : ∀ b, (n.th b).ghostOtherFailed = (s.th b).ghostOtherFailed := by
      intro b
      by_cases hb : b = t
      · subst hb
        rw [hth_t]
      · rw [hth_o b hb]
    have hmn : ∀ b, (n.th b).myNonce = (s.th b).myNonce := by
      intro b
      by_cases hb : b = t
      · subst hb
        exact hnn
      · rw [hth_o b hb]
    rw [hgh true] at hg1
    rw [hgh false] at hg2
    rw [hmn true, hmn false]
    exact hgoal (hcarry true h3t) (hcarry false h3f) hg1 hg2

/-- Invariant preservation for one scheduler step. -/
theorem c2Inv_step (orc : Bool → ThOracle) (s : SysSt) (t : Bool)
    (hinv : c2Inv orc s) : c2Inv orc (c2step orc s t) := by
  by_cases h0 : (s.th t).pc = 0
  · exact c2Inv_step0 orc s t hinv h0
  · by_cases h1 : (s.th t).pc = 1
    · cases hl : s.lockHeld
      · exact c2Inv_step1_free orc s t hinv h1 hl
      · exact c2Inv_step1_held orc s t hinv h1 hl
    · by_cases h2 : (s.th t).pc = 2
      · exact c2Inv_step2 orc s t hinv h2
      · by_cases h3 : (s.th t).pc = 3
        · exact c2Inv_step3 orc s t hinv h3
        · by_cases h4 : (s.th t).pc = 4
          · exact c2Inv_step4 orc s t hinv h4
          · rw [c2step_done orc s t h0 h1 h2 h3 h4]
            exact hinv

/-- The invariant holds initially. -/
theorem c2Inv_init (orc : Bool → ThOracle) : c2Inv orc c2init := by
  refine ⟨?_, ?_, ?_, ?_, ?_, ?_, ?_⟩
  · intro b
    simp [c2init]
  · simp [c2init, inCrit]
  · simp [inCrit, c2init]
  · intro b hb
    simp [c2init] at hb
  · intro b hb
    simp [c2init] at hb
  · exact Or.inl ⟨rfl, rfl, rfl⟩
  · intro h3t
    simp [c2init] at h3t

/-- The invariant holds after any schedule. -/
theorem c2Inv_run (orc : Bool → ThOracle) (sched : List Bool) :
    c2Inv orc (c2run orc c2init sched) := by
  suffices h : ∀ s, c2Inv orc s → c2Inv orc (c2run orc s sched) from
    h c2init (c2Inv_init orc)
  induction sched with
  | nil => intro s hs; exact hs
  | cons x rest ih =>
    intro s hs
    exact ih (c2step orc s x) (c2Inv_step orc s x hs)

/-- Claim C2 (amended): for every interleaving (at suspension points) of
two `submit` calls with `send` intents for the same account, the two
calls never receive the same resolved nonce provided neither call's
ledger entry had already been marked `failed` at the moment the other
resolved its nonce.  The per-account mutex held from the start of nonce
resolution until the intent is recorded as submitted guarantees this;
nonce reuse is possible exactly when an earlier concurrent submission's
dispatch already failed (the counterexample interleaving). -/
theorem c2_amended (orc : Bool → ThOracle) (sched : List Bool)
    (h3t : 3 ≤ ((c2run orc c2init sched).th true).pc)
    (h3f : 3 ≤ ((c2run orc c2init sched).th false).pc)
    (hgt : ((c2run orc c2init sched).th true).ghostOtherFailed = false)
    (hgf : ((c2run orc c2init sched).th false).ghostOtherFailed = false) :
    ((c2run orc c2init sched).th true).myNonce ≠
      ((c2run orc c2init sched).th false).myNonce :=
  (c2Inv_run orc sched).2.2.2.2.2.2 h3t h3f hgt hgf

/-- Witness for C2 (amended): under the sequential schedule with both
dispatches succeeding, both submissions resolve (nonces 0 and 1), no
ghost flag is raised, and the resolved nonces differ. -/
theorem c2_amended_witness :
    (3 ≤ ((c2run okOrc c2init seqSched).th true).pc ∧
     3 ≤ ((c2run okOrc c2init seqSched).th false).pc ∧
     ((c2run okOrc c2init seqSched).th true).ghostOtherFailed = false ∧
     ((c2run okOrc c2init seqSched).th false).ghostOtherFailed = false) ∧
    ((c2run okOrc c2init seqSched).th true).myNonce ≠
      ((c2run okOrc c2init seqSched).th false).myNonce :=
  ⟨⟨by decide, by decide, by decide, by decide⟩,
   c2_amended okOrc seqSched (by decide) (by decide) (by decide) (by decide)⟩
